import Mathlib

/-!
# Verification of the `example_step_workflow` step pipeline

Shallow embedding of the step classes in
`example_step_workflow/steps/` (raw, invert, sum, plot, fancyplot,
mapped_raw, mapped_invert, mapped_sum).

Modelling choices, shared by every definition below:

* A filesystem path is its list of components (`FPath := List String`);
  `p / "x"` in Python is `p ++ ["x"]`, `p.name` is the last component,
  `p.parent` is `dropLast`.
* Numpy arrays are symbolic values (`ArrayVal`): the random generator is
  an abstract deterministic stream whose state is a `Nat`
  (`np.random.seed(s)` sets the state to `s`, each `np.random.rand(m, m)`
  call yields the value `.rand state m` and advances the state by one);
  `np.linalg.inv` and the amax/sort/cumsum reduction are uninterpreted
  constructors applied to the loaded symbolic value.
* A step run is a pure function returning the ordered list of file
  writes it performs (`Event`), the manifest dataframe it builds, and
  its Python return value; fallible runs return `Except IOErr …` and an
  exception raised before any write yields `.error` with no events,
  mirroring the Python control flow where the raise precedes the writes.
* A manifest csv on disk is its `filepath` column, so the filesystem an
  independent run reads manifests from is `FS := FPath → Option (List FPath)`;
  `Path(p).resolve(strict=True)` on a missing file raises, modelled by
  `.error (.fileNotFound p)`.
-/

abbrev FPath := List String

/-- `pathlib.Path.name`: the final path component (`""` for the empty path). -/
def fileName (p : FPath) : String := (p.getLast?).getD ""

/-- `pathlib.Path.parent`: drop the final component. -/
def parentDir (p : FPath) : FPath := p.dropLast

/-! ## Characters, digits and the `matrix_{i}.npy` naming scheme

Filenames are manipulated at the character level so that the Python
string operations (`name.split(".")[0].split("_")[1]`, `int(...)`,
f-string formatting of the index) are embedded faithfully.
-/

/-- Python `str.split(sep)` for a single-character separator: split on every
occurrence, keeping empty pieces. Always returns at least one piece. -/
def splitOnChar (c : Char) : List Char → List (List Char)
  | [] => [[]]
  | x :: xs =>
    if x = c then [] :: splitOnChar c xs
    else
      match splitOnChar c xs with
      | [] => [[x]]
      | y :: ys => (x :: y) :: ys

/-- The decimal digit character for `d < 10` (`'0'`–`'9'`). -/
def digitChar (d : Nat) : Char := Char.ofNat (48 + d)

/-- Decimal rendering of a natural number, as Python's f-string `{i}` does. -/
def natToChars (n : Nat) : List Char :=
  if _ : n < 10 then [digitChar n]
  else natToChars (n / 10) ++ [digitChar (n % 10)]
  decreasing_by exact Nat.div_lt_self (by omega) (by omega)

/-- The numeric value of a decimal digit character, if it is one. -/
def digitVal (c : Char) : Option Nat :=
  if '0' ≤ c ∧ c ≤ '9' then some (c.toNat - 48) else none

def parseDigitsAux : Nat → List Char → Option Nat
  | acc, [] => some acc
  | acc, c :: cs =>
    match digitVal c with
    | some d => parseDigitsAux (10 * acc + d) cs
    | none => none

/-- Python `int(s)` on a plain digit string: `none` models the `ValueError`
raised on an empty or non-digit string. -/
def parseDigits (cs : List Char) : Option Nat :=
  if cs.isEmpty then none else parseDigitsAux 0 cs

/-- `matrix_{i}.npy`, the filename the raw steps give the i-th matrix. -/
def matName (i : Nat) : String :=
  String.mk ("matrix_".toList ++ natToChars i ++ ".npy".toList)

/-- `vector_{i}.npy`, the filename `Sum` gives the i-th vector. -/
def vecName (i : Nat) : String :=
  String.mk ("vector_".toList ++ natToChars i ++ ".npy".toList)

/-- `int(name.split(".")[0].split("_")[1])`, the index-recovery idiom of
`MappedInvert._invert_array` and `MappedSum._sum_array`; `none` models the
`IndexError`/`ValueError` raised when the name does not follow the
`label_index.ext` scheme. -/
def parseIdx (name : String) : Option Nat :=
  ((splitOnChar '_' ((splitOnChar '.' name.toList).headD [])).get? 1).bind parseDigits

/-! ### Round-trip lemmas for the naming scheme -/

theorem splitOnChar_ne_nil (c : Char) (xs : List Char) : splitOnChar c xs ≠ [] := by
  induction xs with
  | nil => simp [splitOnChar]
  | cons x xs ih =>
    rw [splitOnChar]
    split
    · simp
    · cases hs : splitOnChar c xs with
      | nil => exact absurd hs ih
      | cons y ys => simp [hs]

theorem splitOnChar_cons_ne {c x : Char} (xs : List Char) (h : ¬ x = c) :
    splitOnChar c (x :: xs) =
      (x :: (splitOnChar c xs).headD []) :: (splitOnChar c xs).tail := by
  rw [splitOnChar, if_neg h]
  cases hs : splitOnChar c xs with
  | nil => exact absurd hs (splitOnChar_ne_nil c xs)
  | cons y ys => simp

theorem splitOnChar_of_not_mem {c : Char} {xs : List Char} (h : c ∉ xs) :
    splitOnChar c xs = [xs] := by
  induction xs with
  | nil => rfl
  | cons x xs ih =>
    have hxc : ¬ x = c := fun he => h (he ▸ List.mem_cons_self x xs)
    have hxs : c ∉ xs := fun hm => h (List.mem_cons_of_mem x hm)
    rw [splitOnChar_cons_ne xs hxc, ih hxs]
    rfl

theorem splitOnChar_append_sep {c : Char} {xs : List Char} (ys : List Char)
    (h : c ∉ xs) : splitOnChar c (xs ++ c :: ys) = xs :: splitOnChar c ys := by
  induction xs with
  | nil =>
    rw [List.nil_append, splitOnChar, if_pos rfl]
  | cons x xs ih =>
    have hxc : ¬ x = c := fun he => h (he ▸ List.mem_cons_self x xs)
    have hxs : c ∉ xs := fun hm => h (List.mem_cons_of_mem x hm)
    rw [List.cons_append, splitOnChar_cons_ne _ hxc, ih hxs]
    rfl

theorem natToChars_ne_nil (n : Nat) : natToChars n ≠ [] := by
  rw [natToChars]
  split <;> simp

theorem digitVal_digitChar {d : Nat} (h : d < 10) :
    digitVal (digitChar d) = some d := by
  interval_cases d <;> decide

theorem natToChars_mem {n : Nat} :
    ∀ c ∈ natToChars n, ∃ d, d < 10 ∧ c = digitChar d := by
  induction n using Nat.strong_induction_on with
  | _ n ih =>
    intro c hc
    rw [natToChars] at hc
    split at hc
    · next h =>
      simp only [List.mem_singleton] at hc
      exact ⟨n, h, hc⟩
    · next h =>
      rcases List.mem_append.mp hc with h1 | h2
      · exact ih (n / 10) (Nat.div_lt_self (by omega) (by omega)) c h1
      · simp only [List.mem_singleton] at h2
        exact ⟨n % 10, Nat.mod_lt _ (by omega), h2⟩

theorem dot_not_mem_natToChars (n : Nat) : '.' ∉ natToChars n := by
  intro hm
  obtain ⟨d, hd, he⟩ := natToChars_mem _ hm
  interval_cases d <;> simp_all [digitChar]

theorem underscore_not_mem_natToChars (n : Nat) : '_' ∉ natToChars n := by
  intro hm
  obtain ⟨d, hd, he⟩ := natToChars_mem _ hm
  interval_cases d <;> simp_all [digitChar]

theorem parseDigitsAux_append (acc : Nat) (xs ys : List Char) :
    parseDigitsAux acc (xs ++ ys) =
      (parseDigitsAux acc xs).bind (fun a => parseDigitsAux a ys) := by
  induction xs generalizing acc with
  | nil => rfl
  | cons x xs ih =>
    simp only [List.cons_append, parseDigitsAux]
    cases digitVal x with
    | none => rfl
    | some d => exact ih _

theorem parseDigitsAux_natToChars (n : Nat) :
    ∀ acc, parseDigitsAux acc (natToChars n) =
      some (acc * 10 ^ (natToChars n).length + n) := by
  induction n using Nat.strong_induction_on with
  | _ n ih =>
    intro acc
    rw [natToChars]
    split
    · next h =>
      have hone : parseDigitsAux acc [digitChar n] = some (10 * acc + n) := by
        simp [parseDigitsAux, digitVal_digitChar h]
      rw [hone]
      have hlen1 : ([digitChar n] : List Char).length = 1 := rfl
      rw [hlen1, pow_one]
      congr 1
      omega
    · next h =>
      have hlt : n / 10 < n := Nat.div_lt_self (by omega) (by omega)
      have hm : n % 10 < 10 := Nat.mod_lt n (by omega)
      rw [parseDigitsAux_append, ih (n / 10) hlt acc]
      set L := (natToChars (n / 10)).length with hL
      show parseDigitsAux (acc * 10 ^ L + n / 10) [digitChar (n % 10)] = _
      have hstep : parseDigitsAux (acc * 10 ^ L + n / 10) [digitChar (n % 10)]
          = some (10 * (acc * 10 ^ L + n / 10) + n % 10) := by
        simp [parseDigitsAux, digitVal_digitChar hm]
      rw [hstep]
      have hdm : 10 * (n / 10) + n % 10 = n := Nat.div_add_mod n 10
      have hlen : (natToChars (n / 10) ++ [digitChar (n % 10)]).length = L + 1 := by
        simp [hL]
      rw [hlen]
      congr 1
      calc 10 * (acc * 10 ^ L + n / 10) + n % 10
          = acc * (10 ^ L * 10) + (10 * (n / 10) + n % 10) := by ring
        _ = acc * 10 ^ (L + 1) + n := by rw [hdm, pow_succ]

theorem parseDigits_natToChars (n : Nat) : parseDigits (natToChars n) = some n := by
  have hne : (natToChars n).isEmpty = false := by
    cases h : natToChars n with
    | nil => exact absurd h (natToChars_ne_nil n)
    | cons a l => rfl
  rw [parseDigits, hne]
  simpa using parseDigitsAux_natToChars n 0

/-- Generic round-trip: the worker's split recovers `i` from any
`label_{i}.npy`-shaped name whose label avoids `'.'` and `'_'`. -/
theorem parseIdx_label (label : List Char) (i : Nat)
    (hdot : '.' ∉ label) (hund : '_' ∉ label) :
    parseIdx (String.mk (label ++ '_' :: (natToChars i ++ '.' :: "npy".toList))) =
      some i := by
  rw [parseIdx]
  have htl : (String.mk (label ++ '_' :: (natToChars i ++ '.' :: "npy".toList))).toList
      = label ++ '_' :: (natToChars i ++ '.' :: "npy".toList) := rfl
  rw [htl]
  have hassoc : label ++ '_' :: (natToChars i ++ '.' :: "npy".toList)
      = (label ++ '_' :: natToChars i) ++ '.' :: "npy".toList := by
    simp
  rw [hassoc]
  have hdot2 : '.' ∉ label ++ '_' :: natToChars i := by
    intro hm
    rcases List.mem_append.mp hm with h1 | h2
    · exact hdot h1
    · rcases List.mem_cons.mp h2 with h3 | h4
      · exact absurd h3 (by decide)
      · exact dot_not_mem_natToChars i h4
  rw [splitOnChar_append_sep _ hdot2, List.headD_cons,
    splitOnChar_append_sep _ hund,
    splitOnChar_of_not_mem (underscore_not_mem_natToChars i)]
  simp [parseDigits_natToChars i]

theorem toList_matName (i : Nat) :
    (matName i).toList = "matrix".toList ++ '_' :: (natToChars i ++ '.' :: "npy".toList) := by
  show "matrix_".toList ++ natToChars i ++ ".npy".toList = _
  simp

/-- The index-recovery split of the mapped workers inverts the
`matrix_{i}.npy` naming scheme of the raw steps. -/
theorem parseIdx_matName (i : Nat) : parseIdx (matName i) = some i := by
  have h : matName i
      = String.mk ("matrix".toList ++ '_' :: (natToChars i ++ '.' :: "npy".toList)) := by
    show String.mk _ = String.mk _
    rw [show ("matrix_".toList ++ natToChars i ++ ".npy".toList : List Char)
          = "matrix".toList ++ '_' :: (natToChars i ++ '.' :: "npy".toList) by simp]
  rw [h]
  exact parseIdx_label _ i (by decide) (by decide)

theorem parseIdx_vecName (i : Nat) : parseIdx (vecName i) = some i := by
  have h : vecName i
      = String.mk ("vector".toList ++ '_' :: (natToChars i ++ '.' :: "npy".toList)) := by
    show String.mk _ = String.mk _
    rw [show ("vector_".toList ++ natToChars i ++ ".npy".toList : List Char)
          = "vector".toList ++ '_' :: (natToChars i ++ '.' :: "npy".toList) by simp]
  rw [h]
  exact parseIdx_label _ i (by decide) (by decide)

theorem matName_injective : Function.Injective matName := by
  intro i j h
  have hi := parseIdx_matName i
  rw [h, parseIdx_matName j] at hi
  exact (Option.some_inj.mp hi).symm

/-! ## Data model: artifacts, events, manifests, errors -/

/-- Symbolic numpy array values. `rand state m` is `np.random.rand(m, m)`
evaluated at abstract generator state `state`; `inv` is `np.linalg.inv`;
`sumVec` is the `amax` / `sort` / `cumsum` reduction of the sum steps;
`loaded p` is `np.load(p)`. -/
inductive ArrayVal where
  | rand (state m : Nat)
  | inv (a : ArrayVal)
  | sumVec (a : ArrayVal)
  | loaded (p : FPath)
  deriving DecidableEq, Repr

/-- A manifest dataframe: `pd.DataFrame(index=range(n), columns=["filepath"])`
whose cells are filled by `self.manifest.at[i, "filepath"] = path`; a `none`
cell is a NaN never assigned. -/
structure Manifest where
  column : String
  rows : List (Option FPath)
  deriving DecidableEq, Repr

/-- One file write performed by a step: `np.save`, `plt.savefig`, or
`self.manifest.to_csv`. -/
inductive Event where
  | saveArray (p : FPath) (v : ArrayVal)
  | savePlot (p : FPath) (srcs : List FPath)
  | saveManifest (p : FPath) (man : Manifest)
  deriving DecidableEq, Repr

def Event.path : Event → FPath
  | .saveArray p _ => p
  | .savePlot p _ => p
  | .saveManifest p _ => p

/-- Artifact writes are the array and plot saves; the manifest csv is not an
artifact. -/
def Event.isArtifact : Event → Bool
  | .saveArray _ _ => true
  | .savePlot _ _ => true
  | .saveManifest _ _ => false

/-- The native errors a run can propagate: `FileNotFoundError` from
`Path.resolve(strict=True)`, `UnboundLocalError` from `Fancyplot` on an empty
input, `ValueError`/`IndexError` from the mapped workers' filename split. -/
inductive IOErr where
  | fileNotFound (p : FPath)
  | unboundLocal
  | badName (s : String)
  deriving DecidableEq, Repr

/-- The `matrices`/`vectors` argument of a downstream `run`: `None`, a path to
a csv manifest, or directly a list of paths. -/
inductive MatricesArg where
  | manifestPath (p : FPath)
  | paths (ps : List FPath)
  deriving DecidableEq, Repr

/-- The manifests present on disk: a csv's `filepath` column, if the file
exists. -/
abbrev FS := FPath → Option (List FPath)

/-- `Path(p).resolve(strict=True)` followed by `pd.read_csv(p)` and column
extraction: raises `FileNotFoundError` when the manifest is missing. -/
def readManifestCsv (fs : FS) (p : FPath) : Except IOErr (List FPath) :=
  match fs p with
  | none => .error (.fileNotFound p)
  | some rows => .ok rows

/-- The argument-defaulting and csv-loading prologue shared verbatim by
`Invert`, `Sum`, `Plot`, `Fancyplot`, `MappedInvert` and `MappedSum`. -/
def resolveInput (fs : FS) (defaultManifest : FPath) (arg : Option MatricesArg) :
    Except IOErr (List FPath) :=
  match arg with
  | none => readManifestCsv fs defaultManifest
  | some (.manifestPath p) => readManifestCsv fs p
  | some (.paths ps) => .ok ps

def manifestCsvPath (stepDir : FPath) : FPath := stepDir ++ ["manifest.csv"]

def mkManifest (rows : List (Option FPath)) : Manifest := ⟨"filepath", rows⟩

/-- `pd.DataFrame(index=range(n), …)` followed by
`for i, path in infos: manifest.at[i, "filepath"] = path`. (All indices the
claims concern are `< n`; `pandas.at` on a fresh label would instead append a
row, which no run here reaches.) -/
def placeRows (n : Nat) (infos : List (Nat × FPath)) : List (Option FPath) :=
  infos.foldl (fun rows ip => rows.set ip.1 (some ip.2)) (List.replicate n none)

/-- `client.gather(client.map(f, xs))` observed in an arbitrary arrival order:
`sched` lists the task positions in the order their results are consumed. -/
def gather (sched : List Nat) (tasks : List α) : List α :=
  sched.filterMap tasks.get?

def exceptMap (f : α → Except IOErr β) : List α → Except IOErr (List β)
  | [] => .ok []
  | a :: as => do
    let b ← f a
    let bs ← exceptMap f as
    return b :: bs

/-! ## The step runs

Each `<Step>.run` embeds the `run` method of the class of the same name;
`stepDir` stands for `self.step_local_staging_dir`
(`local_staging/<step_name>`).
-/

def Raw.outSubdir : String := "matrices"
def Invert.outSubdir : String := "inverted"
def Sum.outSubdir : String := "vectors"
def Plot.outSubdir : String := "plots"
def Fancyplot.outSubdir : String := "fancyplots"
def MappedRaw.outSubdir : String := "matrices"
def MappedInvert.outSubdir : String := "inverted"
def MappedSum.outSubdir : String := "sum"

/-- `Raw.run(n, m, seed)` (raw.py 23-75): seed the generator, save `n` random
`m × m` matrices as `matrices/matrix_{i}.npy`, fill manifest row `i` with the
i-th path, save the manifest, return the list of paths. -/
def Raw.run (stepDir : FPath) (n m seed : Nat) :
    List Event × Manifest × List FPath :=
  let matricesDir := stepDir ++ [Raw.outSubdir]
  let paths := (List.range n).map fun i => matricesDir ++ [matName i]
  let saves := (List.range n).map fun i =>
    Event.saveArray (matricesDir ++ [matName i]) (.rand (seed + i) m)
  let man := mkManifest (paths.map some)
  (saves ++ [.saveManifest (manifestCsvPath stepDir) man], man, paths)

/-- invert.py 57: default input is the raw step's manifest. -/
def Invert.defaultManifest (stepDir : FPath) : FPath :=
  parentDir stepDir ++ ["raw", "manifest.csv"]

/-- `Invert.run(matrices, …)` (invert.py 27-101): load the input paths, save
each inversion as `inverted/<input name>`, manifest row `i` is the i-th output,
manifest saved last. -/
def Invert.run (stepDir : FPath) (fs : FS) (matrices : Option MatricesArg) :
    Except IOErr (List Event × Manifest × List FPath) := do
  let mats ← resolveInput fs (Invert.defaultManifest stepDir) matrices
  let invertedDir := stepDir ++ [Invert.outSubdir]
  let outs := mats.map fun mp => invertedDir ++ [fileName mp]
  let saves := mats.map fun mp =>
    Event.saveArray (invertedDir ++ [fileName mp]) (.inv (.loaded mp))
  let man := mkManifest (outs.map some)
  return (saves ++ [.saveManifest (manifestCsvPath stepDir) man], man, outs)

/-- sum.py 59: the code defaults to the **raw** step's manifest
(`… .parent / "raw" / "manifest.csv"`), although the docstring at sum.py 46
documents `… .parent / "invert" / manifest.csv` and the step's declared
upstream task is `Invert`. -/
def Sum.defaultManifest (stepDir : FPath) : FPath :=
  parentDir stepDir ++ ["raw", "manifest.csv"]

/-- The default input manifest that sum.py's own docstring (line 46) and
upstream declaration (line 24, `[Invert]`) promise. -/
def Sum.documentedDefaultManifest (stepDir : FPath) : FPath :=
  parentDir stepDir ++ ["invert", "manifest.csv"]

/-- `Sum.run(matrices, …)` (sum.py 28-103): load the input paths, reduce each
to a vector saved as `vectors/vector_{i}.npy`, manifest row `i` is the i-th
output, manifest saved last. -/
def Sum.run (stepDir : FPath) (fs : FS) (matrices : Option MatricesArg) :
    Except IOErr (List Event × Manifest × List FPath) := do
  let mats ← resolveInput fs (Sum.defaultManifest stepDir) matrices
  let vectorDir := stepDir ++ [Sum.outSubdir]
  let outs := (List.range mats.length).map fun i => vectorDir ++ [vecName i]
  let saves := mats.enum.map fun iv =>
    Event.saveArray (vectorDir ++ [vecName iv.1]) (.sumVec (.loaded iv.2))
  let man := mkManifest (outs.map some)
  return (saves ++ [.saveManifest (manifestCsvPath stepDir) man], man, outs)

/-- plot.py 64: default input is the sum step's manifest. -/
def Plot.defaultManifest (stepDir : FPath) : FPath :=
  parentDir stepDir ++ ["sum", "manifest.csv"]

/-- `Plot.run(vectors, …)` (plot.py 33-103): load the input paths, draw all
vectors on one axes, save the single `plots/plot.png`, save a one-row
manifest, and return the single plot path. -/
def Plot.run (stepDir : FPath) (fs : FS) (vectors : Option MatricesArg) :
    Except IOErr (List Event × Manifest × FPath) := do
  let vecs ← resolveInput fs (Plot.defaultManifest stepDir) vectors
  let plotDir := stepDir ++ [Plot.outSubdir]
  let plotSavePath := plotDir ++ ["plot.png"]
  let man := mkManifest [some plotSavePath]
  return ([.savePlot plotSavePath vecs, .saveManifest (manifestCsvPath stepDir) man],
    man, plotSavePath)

/-- fancyplot.py 66: default input is the sum step's manifest. -/
def Fancyplot.defaultManifest (stepDir : FPath) : FPath :=
  parentDir stepDir ++ ["sum", "manifest.csv"]

/-- `Fancyplot.run(vectors, …)` (fancyplot.py 39-133): like `Plot.run` but
saving `fancyplots/plot_fancy.png`. On an empty vector list the loop at
fancyplot.py 85 never assigns `m` or `n`, so line 99
(`plot_matrix[:, m - 1]`) raises `UnboundLocalError` before anything is
written. -/
def Fancyplot.run (stepDir : FPath) (fs : FS) (vectors : Option MatricesArg) :
    Except IOErr (List Event × Manifest × FPath) := do
  let vecs ← resolveInput fs (Fancyplot.defaultManifest stepDir) vectors
  if vecs.isEmpty then
    throw .unboundLocal
  else
    let plotDir := stepDir ++ [Fancyplot.outSubdir]
    let plotSavePath := plotDir ++ ["plot_fancy.png"]
    let man := mkManifest [some plotSavePath]
    return ([.savePlot plotSavePath vecs, .saveManifest (manifestCsvPath stepDir) man],
      man, plotSavePath)

/-- `MappedRaw._generate_array(i, m, save_dir)` (mapped_raw.py 21-31): the
worker draws `np.random.rand(m, m)` from its own process's generator — the
function has no seed parameter, so the draw is modelled at the worker's
ambient state `workerState` — saves `save_dir/matrix_{i}.npy` and returns
`(i, path)`. -/
def MappedRaw.generateArray (workerState : Nat) (i m : Nat) (saveDir : FPath) :
    (Nat × FPath) × Event :=
  let matrixSavePath := saveDir ++ [matName i]
  ((i, matrixSavePath), .saveArray matrixSavePath (.rand workerState m))

/-- `MappedRaw.run(n, m, seed)` (mapped_raw.py 34-82): seed the **driver**
process's generator, map `_generate_array` over `range(n)`, gather (consumed
in arrival order `sched`), place each result at its returned index in a fresh
`n`-row manifest, save the manifest, return `list(manifest["filepath"])`. -/
def MappedRaw.run (stepDir : FPath) (n m seed : Nat)
    (workerState : Nat → Nat) (sched : List Nat) :
    List Event × Manifest × List (Option FPath) :=
  let _driverState := seed
  let matricesDir := stepDir ++ [MappedRaw.outSubdir]
  let results := gather sched
    ((List.range n).map fun i => MappedRaw.generateArray (workerState i) i m matricesDir)
  let saves := results.map (·.2)
  let man := mkManifest (placeRows n (results.map (·.1)))
  (saves ++ [.saveManifest (manifestCsvPath stepDir) man], man, man.rows)

/-- `MappedInvert._invert_array(read_path, save_dir)` (mapped_invert.py
26-52): load, invert, save under the input's filename, then parse the index
back out of the filename and return `(i, path)`. A filename the split cannot
parse raises in the worker and aborts the run before the driver writes the
manifest; the model surfaces that as `.error` (the worker's own save, which
in Python precedes the raise, is dropped — no claim concerns it). -/
def MappedInvert.invertArray (readPath saveDir : FPath) :
    Except IOErr ((Nat × FPath) × Event) :=
  let invSavePath := saveDir ++ [fileName readPath]
  match parseIdx (fileName readPath) with
  | none => .error (.badName (fileName readPath))
  | some i => .ok ((i, invSavePath), .saveArray invSavePath (.inv (.loaded readPath)))

/-- mapped_invert.py 85: default input is the mappedraw step's manifest. -/
def MappedInvert.defaultManifest (stepDir : FPath) : FPath :=
  parentDir stepDir ++ ["mappedraw", "manifest.csv"]

/-- `MappedInvert.run(matrices, …)` (mapped_invert.py 55-122). -/
def MappedInvert.run (stepDir : FPath) (fs : FS) (matrices : Option MatricesArg)
    (sched : List Nat) :
    Except IOErr (List Event × Manifest × List (Option FPath)) := do
  let mats ← resolveInput fs (MappedInvert.defaultManifest stepDir) matrices
  let invertedDir := stepDir ++ [MappedInvert.outSubdir]
  let results ← exceptMap (MappedInvert.invertArray · invertedDir) (gather sched mats)
  let saves := results.map (·.2)
  let man := mkManifest (placeRows mats.length (results.map (·.1)))
  return (saves ++ [.saveManifest (manifestCsvPath stepDir) man], man, man.rows)

/-- `MappedSum._sum_array(read_path, save_dir)` (mapped_sum.py 26-51): like
`_invert_array` but reducing to a vector; the output keeps the **input's**
filename (`save_dir / read_path.name`). -/
def MappedSum.sumArray (readPath saveDir : FPath) :
    Except IOErr ((Nat × FPath) × Event) :=
  let vecSavePath := saveDir ++ [fileName readPath]
  match parseIdx (fileName readPath) with
  | none => .error (.badName (fileName readPath))
  | some i => .ok ((i, vecSavePath), .saveArray vecSavePath (.sumVec (.loaded readPath)))

/-- mapped_sum.py 85-87: default input is the mappedinvert step's manifest. -/
def MappedSum.defaultManifest (stepDir : FPath) : FPath :=
  parentDir stepDir ++ ["mappedinvert", "manifest.csv"]

/-- `MappedSum.run(matrices, …)` (mapped_sum.py 53-122); note the output
directory is `sum/` (mapped_sum.py 101), not `vectors/`. -/
def MappedSum.run (stepDir : FPath) (fs : FS) (matrices : Option MatricesArg)
    (sched : List Nat) :
    Except IOErr (List Event × Manifest × List (Option FPath)) := do
  let mats ← resolveInput fs (MappedSum.defaultManifest stepDir) matrices
  let sumDir := stepDir ++ [MappedSum.outSubdir]
  let results ← exceptMap (MappedSum.sumArray · sumDir) (gather sched mats)
  let saves := results.map (·.2)
  let man := mkManifest (placeRows mats.length (results.map (·.1)))
  return (saves ++ [.saveManifest (manifestCsvPath stepDir) man], man, man.rows)

/-! ## Helper lemmas about gathering, row placement and workers -/

theorem fileName_concat (p : FPath) (s : String) : fileName (p ++ [s]) = s := by
  simp [fileName]

theorem filterMap_get?_range (l : List α) :
    (List.range l.length).filterMap l.get? = l := by
  induction l with
  | nil => rfl
  | cons a l ih =>
    rw [List.length_cons, List.range_succ_eq_map, List.filterMap_cons]
    have h0 : (a :: l).get? 0 = some a := rfl
    rw [h0, List.filterMap_map]
    have hcomp : ((a :: l).get? ∘ Nat.succ) = l.get? := by
      funext k; rfl
    rw [hcomp, ih]

/-- A gather consuming results in any permuted arrival order yields a
permutation of the task results. -/
theorem gather_perm {sched : List Nat} (tasks : List α)
    (h : sched.Perm (List.range tasks.length)) :
    (gather sched tasks).Perm tasks := by
  have hp := h.filterMap tasks.get?
  rw [filterMap_get?_range] at hp
  exact hp

theorem foldl_set_length (infos : List (Nat × FPath)) (acc : List (Option FPath)) :
    (infos.foldl (fun rows ip => rows.set ip.1 (some ip.2)) acc).length = acc.length := by
  induction infos generalizing acc with
  | nil => rfl
  | cons ip infos ih => rw [List.foldl_cons, ih, List.length_set]

theorem placeRows_length (n : Nat) (infos : List (Nat × FPath)) :
    (placeRows n infos).length = n := by
  rw [placeRows, foldl_set_length, List.length_replicate]

theorem foldl_set_getElem?_of_not_mem (infos : List (Nat × FPath)) (acc : List (Option FPath))
    (i : Nat) (h : i ∉ infos.map Prod.fst) :
    (infos.foldl (fun rows ip => rows.set ip.1 (some ip.2)) acc)[i]? = acc[i]? := by
  induction infos generalizing acc with
  | nil => rfl
  | cons ip infos ih =>
    rw [List.map_cons] at h
    have hne : ip.1 ≠ i := fun he => h (he ▸ List.mem_cons_self _ _)
    have htail : i ∉ infos.map Prod.fst := fun hm => h (List.mem_cons_of_mem _ hm)
    rw [List.foldl_cons, ih _ htail, List.getElem?_set_ne hne]

/-- Placing results at their own indices: if the indices are distinct, row `i`
receives exactly the path returned with index `i`, whatever the arrival
order. -/
theorem placeRows_getElem?_of_mem {n : Nat} {infos : List (Nat × FPath)} {i : Nat} {p : FPath}
    (hnd : (infos.map Prod.fst).Nodup) (hmem : (i, p) ∈ infos) (hi : i < n) :
    (placeRows n infos)[i]? = some (some p) := by
  rw [placeRows]
  have hgen : ∀ (infos : List (Nat × FPath)) (acc : List (Option FPath)),
      (infos.map Prod.fst).Nodup → (i, p) ∈ infos → i < acc.length →
      (infos.foldl (fun rows ip => rows.set ip.1 (some ip.2)) acc)[i]?
        = some (some p) := by
    intro infos
    induction infos with
    | nil => intro acc _ hm _; cases hm
    | cons ip infos ih =>
      intro acc hnd hm hlen
      rw [List.map_cons, List.nodup_cons] at hnd
      rcases List.mem_cons.mp hm with he | hm'
      · have hni : i ∉ infos.map Prod.fst := by
          rw [← he] at hnd
          exact hnd.1
        rw [List.foldl_cons, foldl_set_getElem?_of_not_mem _ _ _ hni, ← he]
        exact List.getElem?_set_self hlen
      · rw [List.foldl_cons]
        exact ih _ hnd.2 hm' (by rw [List.length_set]; exact hlen)
  exact hgen infos _ hnd hmem (by rw [List.length_replicate]; exact hi)

theorem exceptMap_ok {α β : Type} {f : α → Except IOErr β} {g : α → β} {l : List α}
    (h : ∀ a ∈ l, f a = .ok (g a)) :
    exceptMap f l = .ok (l.map g) := by
  induction l with
  | nil => rfl
  | cons a l ih =>
    rw [exceptMap, h a (List.mem_cons_self a l),
      ih (fun b hb => h b (List.mem_cons_of_mem a hb))]
    rfl

/-- The invert worker on a canonically named input: the parsed index is the
encoded one and the output keeps the filename. -/
theorem invertArray_matName (srcDir saveDir : FPath) (k : Nat) :
    MappedInvert.invertArray (srcDir ++ [matName k]) saveDir =
      .ok ((k, saveDir ++ [matName k]),
        .saveArray (saveDir ++ [matName k]) (.inv (.loaded (srcDir ++ [matName k])))) := by
  rw [MappedInvert.invertArray, fileName_concat, parseIdx_matName]

/-- The sum worker on a canonically named input. -/
theorem sumArray_matName (srcDir saveDir : FPath) (k : Nat) :
    MappedSum.sumArray (srcDir ++ [matName k]) saveDir =
      .ok ((k, saveDir ++ [matName k]),
        .saveArray (saveDir ++ [matName k]) (.sumVec (.loaded (srcDir ++ [matName k])))) := by
  rw [MappedSum.sumArray, fileName_concat, parseIdx_matName]

theorem ok_bind {α β : Type} (a : α) (f : α → Except IOErr β) :
    (Except.ok a : Except IOErr α) >>= f = f a := rfl

theorem error_bind {α β : Type} (e : IOErr) (f : α → Except IOErr β) :
    (Except.error e : Except IOErr α) >>= f = Except.error e := rfl

/-- The upstream layout the claims quantify over: `n` inputs whose filenames
encode the indices `0 … n-1`. -/
def canonInputs (srcDir : FPath) (n : Nat) : List FPath :=
  (List.range n).map fun k => srcDir ++ [matName k]

theorem canonInputs_length (srcDir : FPath) (n : Nat) :
    (canonInputs srcDir n).length = n := by
  simp [canonInputs]

/-- `MappedInvert.run` on paths handed in directly, once the worker results
are known. -/
theorem mappedInvert_run_paths (stepDir : FPath) (fs : FS) (ps : List FPath)
    (sched : List Nat) {results : List ((Nat × FPath) × Event)}
    (hw : exceptMap (MappedInvert.invertArray · (stepDir ++ [MappedInvert.outSubdir]))
        (gather sched ps) = .ok results) :
    MappedInvert.run stepDir fs (some (.paths ps)) sched =
      .ok (results.map (·.2) ++ [.saveManifest (manifestCsvPath stepDir)
              (mkManifest (placeRows ps.length (results.map (·.1))))],
        mkManifest (placeRows ps.length (results.map (·.1))),
        (mkManifest (placeRows ps.length (results.map (·.1)))).rows) := by
  simp only [MappedInvert.run, resolveInput, ok_bind, hw]
  rfl

theorem mappedSum_run_paths (stepDir : FPath) (fs : FS) (ps : List FPath)
    (sched : List Nat) {results : List ((Nat × FPath) × Event)}
    (hw : exceptMap (MappedSum.sumArray · (stepDir ++ [MappedSum.outSubdir]))
        (gather sched ps) = .ok results) :
    MappedSum.run stepDir fs (some (.paths ps)) sched =
      .ok (results.map (·.2) ++ [.saveManifest (manifestCsvPath stepDir)
              (mkManifest (placeRows ps.length (results.map (·.1))))],
        mkManifest (placeRows ps.length (results.map (·.1))),
        (mkManifest (placeRows ps.length (results.map (·.1)))).rows) := by
  simp only [MappedSum.run, resolveInput, ok_bind, hw]
  rfl


/-- The index/output pair and save event an invert worker returns, written as
a function of the input path (defined when the filename parses). -/
def invertResult (invertedDir : FPath) (p : FPath) : (Nat × FPath) × Event :=
  (((parseIdx (fileName p)).getD 0, invertedDir ++ [fileName p]),
    .saveArray (invertedDir ++ [fileName p]) (.inv (.loaded p)))

def sumResult (sumDir : FPath) (p : FPath) : (Nat × FPath) × Event :=
  (((parseIdx (fileName p)).getD 0, sumDir ++ [fileName p]),
    .saveArray (sumDir ++ [fileName p]) (.sumVec (.loaded p)))

theorem invertResult_matName (dir srcDir : FPath) (k : Nat) :
    invertResult dir (srcDir ++ [matName k])
      = ((k, dir ++ [matName k]),
        .saveArray (dir ++ [matName k]) (.inv (.loaded (srcDir ++ [matName k])))) := by
  simp [invertResult, fileName_concat, parseIdx_matName]

theorem sumResult_matName (dir srcDir : FPath) (k : Nat) :
    sumResult dir (srcDir ++ [matName k])
      = ((k, dir ++ [matName k]),
        .saveArray (dir ++ [matName k]) (.sumVec (.loaded (srcDir ++ [matName k])))) := by
  simp [sumResult, fileName_concat, parseIdx_matName]

theorem gather_subset (sched : List Nat) (tasks : List α) :
    gather sched tasks ⊆ tasks := by
  intro x hx
  rcases List.mem_filterMap.mp hx with ⟨k, _, hk⟩
  exact List.get?_mem hk

/-- On canonically named inputs every invert worker succeeds, and the result
list is the gather-order image of `invertResult`. -/
theorem exceptMap_invertArray_canon (dir srcDir : FPath) (n : Nat) (sched : List Nat) :
    exceptMap (MappedInvert.invertArray · dir) (gather sched (canonInputs srcDir n)) =
      .ok ((gather sched (canonInputs srcDir n)).map (invertResult dir)) := by
  apply exceptMap_ok
  intro a ha
  rcases List.mem_map.mp (gather_subset sched _ ha) with ⟨k, _, rfl⟩
  rw [invertArray_matName, invertResult_matName]

theorem exceptMap_sumArray_canon (dir srcDir : FPath) (n : Nat) (sched : List Nat) :
    exceptMap (MappedSum.sumArray · dir) (gather sched (canonInputs srcDir n)) =
      .ok ((gather sched (canonInputs srcDir n)).map (sumResult dir)) := by
  apply exceptMap_ok
  intro a ha
  rcases List.mem_map.mp (gather_subset sched _ ha) with ⟨k, _, rfl⟩
  rw [sumArray_matName, sumResult_matName]

/-- Rows of a placement over any permutation of indexed results: row `i` gets
the output for index `i`. -/
theorem placeRows_of_perm {n : Nat} {infos : List (Nat × FPath)} {f : Nat → FPath}
    (hperm : infos.Perm ((List.range n).map fun k => (k, f k))) (i : Nat) (hi : i < n) :
    (placeRows n infos)[i]? = some (some (f i)) := by
  have hnd : (infos.map Prod.fst).Nodup := by
    have h2 := hperm.map Prod.fst
    have h3 : ((List.range n).map (fun k => (k, f k))).map Prod.fst = List.range n := by
      rw [List.map_map]
      exact List.map_id _
    rw [h3] at h2
    exact h2.nodup_iff.mpr (List.nodup_range n)
  have hmem : (i, f i) ∈ infos := by
    rw [hperm.mem_iff]
    exact List.mem_map.mpr ⟨i, List.mem_range.mpr hi, rfl⟩
  exact placeRows_getElem?_of_mem hnd hmem hi

theorem gather_canon_perm (srcDir : FPath) {n : Nat} {sched : List Nat}
    (hsched : sched.Perm (List.range n)) :
    (gather sched (canonInputs srcDir n)).Perm (canonInputs srcDir n) := by
  apply gather_perm
  rw [canonInputs_length]
  exact hsched

/-- The index/output pairs of the gathered invert results are a permutation
of the fully indexed canonical outputs. -/
theorem invert_infos_perm (dir srcDir : FPath) {n : Nat} {sched : List Nat}
    (hsched : sched.Perm (List.range n)) :
    (((gather sched (canonInputs srcDir n)).map (invertResult dir)).map (·.1)).Perm
      ((List.range n).map fun k => (k, dir ++ [matName k])) := by
  rw [List.map_map]
  refine ((gather_canon_perm srcDir hsched).map _).trans ?_
  rw [canonInputs, List.map_map]
  have he : ((List.range n).map (((·.1 : (Nat × FPath) × Event → Nat × FPath))
        ∘ invertResult dir ∘ fun k => srcDir ++ [matName k]))
      = (List.range n).map fun k => (k, dir ++ [matName k]) := by
    apply List.map_congr_left
    intro k _
    show (invertResult dir (srcDir ++ [matName k])).1 = _
    rw [invertResult_matName]
  exact he ▸ List.Perm.refl _

theorem sum_infos_perm (dir srcDir : FPath) {n : Nat} {sched : List Nat}
    (hsched : sched.Perm (List.range n)) :
    (((gather sched (canonInputs srcDir n)).map (sumResult dir)).map (·.1)).Perm
      ((List.range n).map fun k => (k, dir ++ [matName k])) := by
  rw [List.map_map]
  refine ((gather_canon_perm srcDir hsched).map _).trans ?_
  rw [canonInputs, List.map_map]
  have he : ((List.range n).map (((·.1 : (Nat × FPath) × Event → Nat × FPath))
        ∘ sumResult dir ∘ fun k => srcDir ++ [matName k]))
      = (List.range n).map fun k => (k, dir ++ [matName k]) := by
    apply List.map_congr_left
    intro k _
    show (sumResult dir (srcDir ++ [matName k])).1 = _
    rw [sumResult_matName]
  exact he ▸ List.Perm.refl _

/-- Row `i` of the canonical `MappedInvert` manifest, for any arrival order. -/
theorem mappedInvert_rows_canon (stepDir srcDir : FPath) (fs : FS) (n : Nat)
    (sched : List Nat) (hsched : sched.Perm (List.range n)) (i : Nat) (hi : i < n) :
    (MappedInvert.run stepDir fs (some (.paths (canonInputs srcDir n))) sched).map
        (fun r => r.2.1.rows[i]?)
      = .ok (some (some (stepDir ++ [MappedInvert.outSubdir] ++ [matName i]))) := by
  rw [mappedInvert_run_paths stepDir fs (canonInputs srcDir n) sched
    (exceptMap_invertArray_canon (stepDir ++ [MappedInvert.outSubdir]) srcDir n sched)]
  have hrows : (placeRows (canonInputs srcDir n).length
      (((gather sched (canonInputs srcDir n)).map
        (invertResult (stepDir ++ [MappedInvert.outSubdir]))).map (·.1)))[i]?
      = some (some (stepDir ++ [MappedInvert.outSubdir] ++ [matName i])) := by
    rw [canonInputs_length]
    exact placeRows_of_perm
      (invert_infos_perm (stepDir ++ [MappedInvert.outSubdir]) srcDir hsched) i hi
  exact congrArg Except.ok hrows

/-- Row `i` of the canonical `MappedSum` manifest, for any arrival order. -/
theorem mappedSum_rows_canon (stepDir srcDir : FPath) (fs : FS) (n : Nat)
    (sched : List Nat) (hsched : sched.Perm (List.range n)) (i : Nat) (hi : i < n) :
    (MappedSum.run stepDir fs (some (.paths (canonInputs srcDir n))) sched).map
        (fun r => r.2.1.rows[i]?)
      = .ok (some (some (stepDir ++ [MappedSum.outSubdir] ++ [matName i]))) := by
  rw [mappedSum_run_paths stepDir fs (canonInputs srcDir n) sched
    (exceptMap_sumArray_canon (stepDir ++ [MappedSum.outSubdir]) srcDir n sched)]
  have hrows : (placeRows (canonInputs srcDir n).length
      (((gather sched (canonInputs srcDir n)).map
        (sumResult (stepDir ++ [MappedSum.outSubdir]))).map (·.1)))[i]?
      = some (some (stepDir ++ [MappedSum.outSubdir] ++ [matName i])) := by
    rw [canonInputs_length]
    exact placeRows_of_perm
      (sum_infos_perm (stepDir ++ [MappedSum.outSubdir]) srcDir hsched) i hi
  exact congrArg Except.ok hrows

/-- Row `i` of the `MappedRaw` manifest, for any arrival order. -/
theorem mappedRaw_rows_canon (stepDir : FPath) (n m seed : Nat)
    (workerState : Nat → Nat) (sched : List Nat)
    (hsched : sched.Perm (List.range n)) (i : Nat) (hi : i < n) :
    (MappedRaw.run stepDir n m seed workerState sched).2.1.rows[i]?
      = some (some (stepDir ++ [MappedRaw.outSubdir] ++ [matName i])) := by
  show (placeRows n ((gather sched ((List.range n).map fun j =>
      MappedRaw.generateArray (workerState j) j m (stepDir ++ [MappedRaw.outSubdir]))).map
        (·.1)))[i]? = _
  apply placeRows_of_perm (f := fun k => stepDir ++ [MappedRaw.outSubdir] ++ [matName k]) _ i hi
  have htasks : ((List.range n).map fun j =>
      MappedRaw.generateArray (workerState j) j m (stepDir ++ [MappedRaw.outSubdir])).length
      = n := by simp
  have hg := (gather_perm _ (htasks ▸ hsched)).map
    (·.1 : (Nat × FPath) × Event → Nat × FPath)
  refine hg.trans ?_
  rw [List.map_map]
  have he : ((List.range n).map ((·.1 : (Nat × FPath) × Event → Nat × FPath)
        ∘ fun j => MappedRaw.generateArray (workerState j) j m (stepDir ++ [MappedRaw.outSubdir])))
      = (List.range n).map fun k => (k, stepDir ++ [MappedRaw.outSubdir] ++ [matName k]) := by
    apply List.map_congr_left
    intro k _
    rfl
  exact he ▸ List.Perm.refl _

/-! ## Claim theorems -/

/-- Claim C1 (code bug in sum.py): invoked independently with
`matrices = None`, `Sum.run` reads `local_staging/raw/manifest.csv` — not the
invert step's manifest, as the pipeline order raw→invert→sum, the docstring
(sum.py 46) and the declared upstream task `[Invert]` require: with the
invert manifest present on disk and the raw manifest absent, the run fails
with `FileNotFoundError` on the raw path instead of reading the invert
manifest. -/
theorem sum_default_reads_raw_manifest :
    Sum.defaultManifest ["local_staging", "sum"] = ["local_staging", "raw", "manifest.csv"] ∧
    Sum.defaultManifest ["local_staging", "sum"]
      ≠ Sum.documentedDefaultManifest ["local_staging", "sum"] ∧
    Sum.run ["local_staging", "sum"]
      (fun p => if p = ["local_staging", "invert", "manifest.csv"]
        then some [["local_staging", "invert", "inverted", matName 0]] else none)
      none
      = .error (.fileNotFound ["local_staging", "raw", "manifest.csv"]) := by
  refine ⟨rfl, by decide, ?_⟩
  rfl

/-- Claim C3: `Raw.run` with parameter `n` builds a manifest with exactly `n`
rows and returns a list of exactly `n` paths (so in particular `n = 3` gives
3 rows and 3 paths). -/
theorem raw_run_counts (stepDir : FPath) (n m seed : Nat) :
    (Raw.run stepDir n m seed).2.1.rows.length = n ∧
    (Raw.run stepDir n m seed).2.2.length = n := by
  constructor
  · show (((List.range n).map _).map some).length = n
    simp
  · show ((List.range n).map _).length = n
    simp

/-- Claim C2: for input lists whose filenames encode the indices `0 … n-1`
and any permutation `sched` in which the parallel map's results are
gathered, row `i` of the manifest written by `MappedRaw`, `MappedInvert` and
`MappedSum` holds the output path whose filename encodes `i`: each worker
parses the index back out of the filename (`parseIdx`) and the driver places
each result at that parsed index (`placeRows`). -/
theorem mapped_manifest_row_matches_index (stepDir srcDir : FPath) (fs : FS)
    (n m seed : Nat) (workerState : Nat → Nat) (sched : List Nat)
    (hsched : sched.Perm (List.range n)) (i : Nat) (hi : i < n) :
    (MappedRaw.run stepDir n m seed workerState sched).2.1.rows[i]?
        = some (some (stepDir ++ [MappedRaw.outSubdir] ++ [matName i])) ∧
    (MappedInvert.run stepDir fs (some (.paths (canonInputs srcDir n))) sched).map
        (fun r => r.2.1.rows[i]?)
        = .ok (some (some (stepDir ++ [MappedInvert.outSubdir] ++ [matName i]))) ∧
    (MappedSum.run stepDir fs (some (.paths (canonInputs srcDir n))) sched).map
        (fun r => r.2.1.rows[i]?)
        = .ok (some (some (stepDir ++ [MappedSum.outSubdir] ++ [matName i]))) ∧
    fileName (stepDir ++ [MappedInvert.outSubdir] ++ [matName i]) = matName i ∧
    parseIdx (matName i) = some i :=
  ⟨mappedRaw_rows_canon stepDir n m seed workerState sched hsched i hi,
   mappedInvert_rows_canon stepDir srcDir fs n sched hsched i hi,
   mappedSum_rows_canon stepDir srcDir fs n sched hsched i hi,
   fileName_concat _ _,
   parseIdx_matName i⟩

theorem mapped_manifest_row_matches_index_witness :
    (([1, 0] : List Nat).Perm (List.range 2) ∧ 1 < 2) ∧
    ((MappedRaw.run ["ls", "step"] 2 3 7 (fun s => s) [1, 0]).2.1.rows[1]?
        = some (some (["ls", "step"] ++ [MappedRaw.outSubdir] ++ [matName 1])) ∧
      (MappedInvert.run ["ls", "step"] (fun _ => none)
          (some (.paths (canonInputs ["src"] 2))) [1, 0]).map (fun r => r.2.1.rows[1]?)
        = .ok (some (some (["ls", "step"] ++ [MappedInvert.outSubdir] ++ [matName 1]))) ∧
      (MappedSum.run ["ls", "step"] (fun _ => none)
          (some (.paths (canonInputs ["src"] 2))) [1, 0]).map (fun r => r.2.1.rows[1]?)
        = .ok (some (some (["ls", "step"] ++ [MappedSum.outSubdir] ++ [matName 1]))) ∧
      fileName (["ls", "step"] ++ [MappedInvert.outSubdir] ++ [matName 1]) = matName 1 ∧
      parseIdx (matName 1) = some 1) :=
  ⟨⟨by decide, by decide⟩,
    mapped_manifest_row_matches_index ["ls", "step"] ["src"] (fun _ => none)
      2 3 7 (fun s => s) [1, 0] (by decide) 1 (by decide)⟩

/-- The writes a fallible run performs: none when it raised. -/
def writesOf {α : Type} : Except IOErr (List Event × Manifest × α) → List Event
  | .ok r => r.1
  | .error _ => []

theorem invert_run_ok (stepDir : FPath) (fs : FS) (arg : Option MatricesArg)
    {mats : List FPath}
    (hres : resolveInput fs (Invert.defaultManifest stepDir) arg = .ok mats) :
    Invert.run stepDir fs arg =
      .ok ((mats.map fun mp =>
          Event.saveArray ((stepDir ++ [Invert.outSubdir]) ++ [fileName mp])
            (.inv (.loaded mp)))
        ++ [.saveManifest (manifestCsvPath stepDir)
            (mkManifest ((mats.map fun mp =>
              (stepDir ++ [Invert.outSubdir]) ++ [fileName mp]).map some))],
        mkManifest ((mats.map fun mp =>
          (stepDir ++ [Invert.outSubdir]) ++ [fileName mp]).map some),
        mats.map fun mp => (stepDir ++ [Invert.outSubdir]) ++ [fileName mp]) := by
  simp only [Invert.run, hres, ok_bind]
  rfl

theorem sum_run_ok (stepDir : FPath) (fs : FS) (arg : Option MatricesArg)
    {mats : List FPath}
    (hres : resolveInput fs (Sum.defaultManifest stepDir) arg = .ok mats) :
    Sum.run stepDir fs arg =
      .ok ((mats.enum.map fun iv =>
          Event.saveArray ((stepDir ++ [Sum.outSubdir]) ++ [vecName iv.1])
            (.sumVec (.loaded iv.2)))
        ++ [.saveManifest (manifestCsvPath stepDir)
            (mkManifest (((List.range mats.length).map fun i =>
              (stepDir ++ [Sum.outSubdir]) ++ [vecName i]).map some))],
        mkManifest (((List.range mats.length).map fun i =>
          (stepDir ++ [Sum.outSubdir]) ++ [vecName i]).map some),
        (List.range mats.length).map fun i => (stepDir ++ [Sum.outSubdir]) ++ [vecName i]) := by
  simp only [Sum.run, hres, ok_bind]
  rfl

theorem plot_run_ok (stepDir : FPath) (fs : FS) (arg : Option MatricesArg)
    {vecs : List FPath}
    (hres : resolveInput fs (Plot.defaultManifest stepDir) arg = .ok vecs) :
    Plot.run stepDir fs arg =
      .ok ([.savePlot ((stepDir ++ [Plot.outSubdir]) ++ ["plot.png"]) vecs,
          .saveManifest (manifestCsvPath stepDir)
            (mkManifest [some ((stepDir ++ [Plot.outSubdir]) ++ ["plot.png"])])],
        mkManifest [some ((stepDir ++ [Plot.outSubdir]) ++ ["plot.png"])],
        (stepDir ++ [Plot.outSubdir]) ++ ["plot.png"]) := by
  simp only [Plot.run, hres, ok_bind]
  rfl

theorem fancyplot_run_ok (stepDir : FPath) (fs : FS) (arg : Option MatricesArg)
    {vecs : List FPath} (hne : vecs ≠ [])
    (hres : resolveInput fs (Fancyplot.defaultManifest stepDir) arg = .ok vecs) :
    Fancyplot.run stepDir fs arg =
      .ok ([.savePlot ((stepDir ++ [Fancyplot.outSubdir]) ++ ["plot_fancy.png"]) vecs,
          .saveManifest (manifestCsvPath stepDir)
            (mkManifest [some ((stepDir ++ [Fancyplot.outSubdir]) ++ ["plot_fancy.png"])])],
        mkManifest [some ((stepDir ++ [Fancyplot.outSubdir]) ++ ["plot_fancy.png"])],
        (stepDir ++ [Fancyplot.outSubdir]) ++ ["plot_fancy.png"]) := by
  have hie : vecs.isEmpty = false := by
    cases vecs with
    | nil => exact absurd rfl hne
    | cons a l => rfl
  simp only [Fancyplot.run, hres, ok_bind, hie]
  rfl

theorem mappedInvert_run_ok (stepDir : FPath) (fs : FS) (arg : Option MatricesArg)
    (sched : List Nat) {mats : List FPath} {results : List ((Nat × FPath) × Event)}
    (hres : resolveInput fs (MappedInvert.defaultManifest stepDir) arg = .ok mats)
    (hw : exceptMap (MappedInvert.invertArray · (stepDir ++ [MappedInvert.outSubdir]))
        (gather sched mats) = .ok results) :
    MappedInvert.run stepDir fs arg sched =
      .ok (results.map (·.2) ++ [.saveManifest (manifestCsvPath stepDir)
              (mkManifest (placeRows mats.length (results.map (·.1))))],
        mkManifest (placeRows mats.length (results.map (·.1))),
        (mkManifest (placeRows mats.length (results.map (·.1)))).rows) := by
  simp only [MappedInvert.run, hres, ok_bind, hw]
  rfl

theorem mappedSum_run_ok (stepDir : FPath) (fs : FS) (arg : Option MatricesArg)
    (sched : List Nat) {mats : List FPath} {results : List ((Nat × FPath) × Event)}
    (hres : resolveInput fs (MappedSum.defaultManifest stepDir) arg = .ok mats)
    (hw : exceptMap (MappedSum.sumArray · (stepDir ++ [MappedSum.outSubdir]))
        (gather sched mats) = .ok results) :
    MappedSum.run stepDir fs arg sched =
      .ok (results.map (·.2) ++ [.saveManifest (manifestCsvPath stepDir)
              (mkManifest (placeRows mats.length (results.map (·.1))))],
        mkManifest (placeRows mats.length (results.map (·.1))),
        (mkManifest (placeRows mats.length (results.map (·.1)))).rows) := by
  simp only [MappedSum.run, hres, ok_bind, hw]
  rfl

theorem exceptMap_mem {α β : Type} {f : α → Except IOErr β} :
    ∀ {l : List α} {res : List β}, exceptMap f l = .ok res →
      ∀ b ∈ res, ∃ a ∈ l, f a = .ok b := by
  intro l
  induction l with
  | nil =>
    intro res h b hb
    rw [exceptMap] at h
    injection h with h
    subst h
    cases hb
  | cons a l ih =>
    intro res h b hb
    rw [exceptMap] at h
    cases hfa : f a with
    | error err =>
      rw [hfa, error_bind] at h
      cases h
    | ok b0 =>
      rw [hfa, ok_bind] at h
      cases hrest : exceptMap f l with
      | error err =>
        rw [hrest, error_bind] at h
        cases h
      | ok bs =>
        rw [hrest, ok_bind] at h
        injection h with h
        subst h
        rcases List.mem_cons.mp hb with rfl | hbmem
        · exact ⟨a, List.mem_cons_self _ _, hfa⟩
        · rcases ih hrest b hbmem with ⟨a2, ha2, hfa2⟩
          exact ⟨a2, List.mem_cons_of_mem _ ha2, hfa2⟩

theorem invertArray_ok_shape {p dir : FPath} {r : (Nat × FPath) × Event}
    (h : MappedInvert.invertArray p dir = .ok r) :
    r = ((r.1.1, dir ++ [fileName p]),
      .saveArray (dir ++ [fileName p]) (.inv (.loaded p))) := by
  rw [MappedInvert.invertArray] at h
  split at h
  · cases h
  · injection h with h
    subst h
    rfl

theorem sumArray_ok_shape {p dir : FPath} {r : (Nat × FPath) × Event}
    (h : MappedSum.sumArray p dir = .ok r) :
    r = ((r.1.1, dir ++ [fileName p]),
      .saveArray (dir ++ [fileName p]) (.sumVec (.loaded p))) := by
  rw [MappedSum.sumArray] at h
  split at h
  · cases h
  · injection h with h
    subst h
    rfl

/-! ## File layout -/

/-- The per-step output subdirectories the spec's file-layout section names. -/
def specLayoutSubdirs : List String := ["matrices", "inverted", "vectors", "plots"]

/-- The output subdirectories actually used by the code: the spec's four plus
`sum/` (MappedSum) and `fancyplots/` (Fancyplot). -/
def amendedLayoutSubdirs : List String :=
  ["matrices", "inverted", "vectors", "plots", "sum", "fancyplots"]

/-- Every event writes either the step's own `manifest.csv` or a file inside
the step's single output subdirectory `sub`. -/
def layoutOk (stepDir : FPath) (sub : String) (events : List Event) : Prop :=
  ∀ e ∈ events, e.path = manifestCsvPath stepDir ∨ ∃ name, e.path = stepDir ++ [sub, name]

theorem layoutOk_raw (stepDir : FPath) (n m seed : Nat) :
    layoutOk stepDir Raw.outSubdir (Raw.run stepDir n m seed).1 := by
  intro e he
  simp only [Raw.run] at he
  rcases List.mem_append.mp he with h | h
  · rcases List.mem_map.mp h with ⟨i, _, rfl⟩
    exact Or.inr ⟨matName i, by simp [Event.path]⟩
  · rw [List.mem_singleton] at h
    subst h
    exact Or.inl rfl

theorem layoutOk_invert (stepDir : FPath) (fs : FS) (arg : Option MatricesArg) :
    layoutOk stepDir Invert.outSubdir (writesOf (Invert.run stepDir fs arg)) := by
  cases hres : resolveInput fs (Invert.defaultManifest stepDir) arg with
  | error err =>
    have hrun : Invert.run stepDir fs arg = .error err := by
      simp only [Invert.run, hres, error_bind]
    rw [hrun]
    intro e he
    cases he
  | ok mats =>
    rw [invert_run_ok stepDir fs arg hres]
    intro e he
    rcases List.mem_append.mp he with h | h
    · rcases List.mem_map.mp h with ⟨mp, _, rfl⟩
      exact Or.inr ⟨fileName mp, by simp [Event.path]⟩
    · rw [List.mem_singleton] at h
      subst h
      exact Or.inl rfl

theorem layoutOk_sum (stepDir : FPath) (fs : FS) (arg : Option MatricesArg) :
    layoutOk stepDir Sum.outSubdir (writesOf (Sum.run stepDir fs arg)) := by
  cases hres : resolveInput fs (Sum.defaultManifest stepDir) arg with
  | error err =>
    have hrun : Sum.run stepDir fs arg = .error err := by
      simp only [Sum.run, hres, error_bind]
    rw [hrun]
    intro e he
    cases he
  | ok mats =>
    rw [sum_run_ok stepDir fs arg hres]
    intro e he
    rcases List.mem_append.mp he with h | h
    · rcases List.mem_map.mp h with ⟨iv, _, rfl⟩
      exact Or.inr ⟨vecName iv.1, by simp [Event.path]⟩
    · rw [List.mem_singleton] at h
      subst h
      exact Or.inl rfl

theorem layoutOk_plot (stepDir : FPath) (fs : FS) (arg : Option MatricesArg) :
    layoutOk stepDir Plot.outSubdir (writesOf (Plot.run stepDir fs arg)) := by
  cases hres : resolveInput fs (Plot.defaultManifest stepDir) arg with
  | error err =>
    have hrun : Plot.run stepDir fs arg = .error err := by
      simp only [Plot.run, hres, error_bind]
    rw [hrun]
    intro e he
    cases he
  | ok vecs =>
    rw [plot_run_ok stepDir fs arg hres]
    intro e he
    rcases List.mem_cons.mp he with rfl | h
    · exact Or.inr ⟨"plot.png", by simp [Event.path]⟩
    · rw [List.mem_singleton] at h
      subst h
      exact Or.inl rfl

theorem layoutOk_fancyplot (stepDir : FPath) (fs : FS) (arg : Option MatricesArg) :
    layoutOk stepDir Fancyplot.outSubdir (writesOf (Fancyplot.run stepDir fs arg)) := by
  cases hres : resolveInput fs (Fancyplot.defaultManifest stepDir) arg with
  | error err =>
    have hrun : Fancyplot.run stepDir fs arg = .error err := by
      simp only [Fancyplot.run, hres, error_bind]
    rw [hrun]
    intro e he
    cases he
  | ok vecs =>
    cases hv : vecs with
    | nil =>
      have hrun : Fancyplot.run stepDir fs arg = .error .unboundLocal := by
        simp only [Fancyplot.run, hres, ok_bind, hv]
        rfl
      rw [hrun]
      intro e he
      cases he
    | cons v vs =>
      rw [fancyplot_run_ok stepDir fs arg (by simp [hv]) hres]
      intro e he
      rcases List.mem_cons.mp he with rfl | h
      · exact Or.inr ⟨"plot_fancy.png", by simp [Event.path]⟩
      · rw [List.mem_singleton] at h
        subst h
        exact Or.inl rfl

theorem layoutOk_mappedRaw (stepDir : FPath) (n m seed : Nat)
    (workerState : Nat → Nat) (sched : List Nat) :
    layoutOk stepDir MappedRaw.outSubdir
      (MappedRaw.run stepDir n m seed workerState sched).1 := by
  intro e he
  simp only [MappedRaw.run] at he
  rcases List.mem_append.mp he with h | h
  · rcases List.mem_map.mp h with ⟨r, hr, rfl⟩
    rcases List.mem_map.mp (gather_subset sched _ hr) with ⟨j, _, rfl⟩
    exact Or.inr ⟨matName j, by simp [MappedRaw.generateArray, Event.path]⟩
  · rw [List.mem_singleton] at h
    subst h
    exact Or.inl rfl

theorem layoutOk_mappedInvert (stepDir : FPath) (fs : FS) (arg : Option MatricesArg)
    (sched : List Nat) :
    layoutOk stepDir MappedInvert.outSubdir
      (writesOf (MappedInvert.run stepDir fs arg sched)) := by
  cases hres : resolveInput fs (MappedInvert.defaultManifest stepDir) arg with
  | error err =>
    have hrun : MappedInvert.run stepDir fs arg sched = .error err := by
      simp only [MappedInvert.run, hres, error_bind]
    rw [hrun]
    intro e he
    cases he
  | ok mats =>
    cases hw : exceptMap (MappedInvert.invertArray · (stepDir ++ [MappedInvert.outSubdir]))
        (gather sched mats) with
    | error err =>
      have hrun : MappedInvert.run stepDir fs arg sched = .error err := by
        simp only [MappedInvert.run, hres, ok_bind, hw, error_bind]
      rw [hrun]
      intro e he
      cases he
    | ok results =>
      rw [mappedInvert_run_ok stepDir fs arg sched hres hw]
      intro e he
      rcases List.mem_append.mp he with h | h
      · rcases List.mem_map.mp h with ⟨r, hr, rfl⟩
        rcases exceptMap_mem hw r hr with ⟨p, _, hp⟩
        rw [invertArray_ok_shape hp]
        exact Or.inr ⟨fileName p, by simp [Event.path]⟩
      · rw [List.mem_singleton] at h
        subst h
        exact Or.inl rfl

theorem layoutOk_mappedSum (stepDir : FPath) (fs : FS) (arg : Option MatricesArg)
    (sched : List Nat) :
    layoutOk stepDir MappedSum.outSubdir
      (writesOf (MappedSum.run stepDir fs arg sched)) := by
  cases hres : resolveInput fs (MappedSum.defaultManifest stepDir) arg with
  | error err =>
    have hrun : MappedSum.run stepDir fs arg sched = .error err := by
      simp only [MappedSum.run, hres, error_bind]
    rw [hrun]
    intro e he
    cases he
  | ok mats =>
    cases hw : exceptMap (MappedSum.sumArray · (stepDir ++ [MappedSum.outSubdir]))
        (gather sched mats) with
    | error err =>
      have hrun : MappedSum.run stepDir fs arg sched = .error err := by
        simp only [MappedSum.run, hres, ok_bind, hw, error_bind]
      rw [hrun]
      intro e he
      cases he
    | ok results =>
      rw [mappedSum_run_ok stepDir fs arg sched hres hw]
      intro e he
      rcases List.mem_append.mp he with h | h
      · rcases List.mem_map.mp h with ⟨r, hr, rfl⟩
        rcases exceptMap_mem hw r hr with ⟨p, _, hp⟩
        rw [sumArray_ok_shape hp]
        exact Or.inr ⟨fileName p, by simp [Event.path]⟩
      · rw [List.mem_singleton] at h
        subst h
        exact Or.inl rfl

theorem matName_ne_vecName (i : Nat) : matName i ≠ vecName i := by
  intro h
  have h2 : (matName i).toList = (vecName i).toList := congrArg String.toList h
  have h3 : 'm' :: ("atrix_".toList ++ (natToChars i ++ ".npy".toList))
      = 'v' :: ("ector_".toList ++ (natToChars i ++ ".npy".toList)) := by
    have hl : (matName i).toList
        = 'm' :: ("atrix_".toList ++ (natToChars i ++ ".npy".toList)) := by
      show "matrix_".toList ++ natToChars i ++ ".npy".toList = _
      simp
    have hr : (vecName i).toList
        = 'v' :: ("ector_".toList ++ (natToChars i ++ ".npy".toList)) := by
      show "vector_".toList ++ natToChars i ++ ".npy".toList = _
      simp
    rw [← hl, ← hr]
    exact h2
  injection h3 with hc _
  exact absurd hc (by decide)

/-- Claim C4 counterexample: running `MappedSum` on the single input
`src/matrix_0.npy` puts a path named `matrix_0.npy` — not `vector_0.npy` — at
manifest row 0: the sum-style mapped step does not name its vectors
`vector_{i}`. -/
theorem mappedSum_row_zero_not_vector_named :
    (MappedSum.run ["local_staging", "mappedsum"] (fun _ => none)
        (some (.paths [["src", "matrix_0.npy"]])) [0]).map
      (fun r => (r.2.1.rows[0]?).map (Option.map fileName))
      = .ok (some (some "matrix_0.npy")) ∧
    "matrix_0.npy" ≠ vecName 0 := by
  constructor
  · rfl
  · decide

/-- Claim C4 (amended): array artifacts are named by index — `matrix_{i}` by
`Raw`, `vector_{i}` by `Sum` at manifest row `i`; `MappedSum`, however,
reuses the input's filename, so its vector artifact at manifest row `i` is
named `matrix_{i}`, not `vector_{i}`. -/
theorem artifact_named_by_index (stepDir srcDir : FPath) (fs : FS)
    (n m seed : Nat) (sched : List Nat) (mats : List FPath)
    (hsched : sched.Perm (List.range n)) (i : Nat) (hi : i < n)
    (him : i < mats.length) :
    ((Raw.run stepDir n m seed).2.2[i]?).map fileName = some (matName i) ∧
    (Sum.run stepDir fs (some (.paths mats))).map
        (fun r => (r.2.2[i]?).map fileName) = .ok (some (vecName i)) ∧
    (MappedSum.run stepDir fs (some (.paths (canonInputs srcDir n))) sched).map
        (fun r => (r.2.1.rows[i]?).map (Option.map fileName))
      = .ok (some (some (matName i))) ∧
    matName i ≠ vecName i := by
  refine ⟨?_, ?_, ?_, matName_ne_vecName i⟩
  · show (((List.range n).map fun j =>
        (stepDir ++ [Raw.outSubdir]) ++ [matName j])[i]?).map fileName = _
    rw [List.getElem?_map, List.getElem?_range hi]
    show some (fileName ((stepDir ++ [Raw.outSubdir]) ++ [matName i])) = _
    rw [fileName_concat]
  · rw [sum_run_ok stepDir fs (some (.paths mats)) rfl]
    refine congrArg Except.ok ?_
    show (((List.range mats.length).map fun j =>
        (stepDir ++ [Sum.outSubdir]) ++ [vecName j])[i]?).map fileName = _
    rw [List.getElem?_map, List.getElem?_range him]
    show some (fileName ((stepDir ++ [Sum.outSubdir]) ++ [vecName i])) = _
    rw [fileName_concat]
  · have hcanon := mappedSum_rows_canon stepDir srcDir fs n sched hsched i hi
    cases hrun : MappedSum.run stepDir fs (some (.paths (canonInputs srcDir n))) sched with
    | error err =>
      rw [hrun] at hcanon
      cases hcanon
    | ok r =>
      rw [hrun] at hcanon
      simp only [Except.map] at hcanon ⊢
      injection hcanon with h2
      rw [h2]
      refine congrArg Except.ok ?_
      show some (some (fileName (stepDir ++ [MappedSum.outSubdir] ++ [matName i]))) = _
      rw [fileName_concat]

theorem artifact_named_by_index_witness :
    (([0] : List Nat).Perm (List.range 1) ∧ 0 < 1 ∧
      0 < ([["a", "b.npy"]] : List FPath).length) ∧
    (((Raw.run ["ls", "x"] 1 2 3).2.2[0]?).map fileName = some (matName 0) ∧
      (Sum.run ["ls", "x"] (fun _ => none) (some (.paths [["a", "b.npy"]]))).map
          (fun r => (r.2.2[0]?).map fileName) = .ok (some (vecName 0)) ∧
      (MappedSum.run ["ls", "x"] (fun _ => none)
          (some (.paths (canonInputs ["s"] 1))) [0]).map
          (fun r => (r.2.1.rows[0]?).map (Option.map fileName))
        = .ok (some (some (matName 0))) ∧
      matName 0 ≠ vecName 0) :=
  ⟨⟨by decide, by decide, by decide⟩,
    artifact_named_by_index ["ls", "x"] ["s"] (fun _ => none) 1 2 3 [0]
      [["a", "b.npy"]] (by decide) 0 (by decide) (by decide)⟩

/-- Claim C5 counterexample: `MappedSum` writes its artifacts into the
subdirectory `sum/` (mapped_sum.py 101) and `Fancyplot` into `fancyplots/`
(fancyplot.py 80), neither of which is in the spec's layout set
`{matrices, inverted, vectors, plots}`; concretely, the first write of a
`MappedSum` run lands in `local_staging/mappedsum/sum/`. -/
theorem mappedSum_writes_outside_spec_layout :
    MappedSum.outSubdir ∉ specLayoutSubdirs ∧
    Fancyplot.outSubdir ∉ specLayoutSubdirs ∧
    (MappedSum.run ["local_staging", "mappedsum"] (fun _ => none)
        (some (.paths [["src", "matrix_0.npy"]])) [0]).map
      (fun r => (r.1.head?).map Event.path)
      = .ok (some ["local_staging", "mappedsum", "sum", "matrix_0.npy"]) := by
  refine ⟨by decide, by decide, ?_⟩
  rfl

/-- Claim C5 (amended): every step writes only its own `manifest.csv` plus
artifacts inside a single subdirectory of its own step directory, drawn from
`{matrices, inverted, vectors, plots, sum, fancyplots}` — the spec's four
names plus `sum/` (MappedSum) and `fancyplots/` (Fancyplot). -/
theorem step_output_layout (stepDir : FPath) (fs : FS) (n m seed : Nat)
    (arg : Option MatricesArg) (workerState : Nat → Nat) (sched : List Nat) :
    layoutOk stepDir Raw.outSubdir (Raw.run stepDir n m seed).1 ∧
    layoutOk stepDir Invert.outSubdir (writesOf (Invert.run stepDir fs arg)) ∧
    layoutOk stepDir Sum.outSubdir (writesOf (Sum.run stepDir fs arg)) ∧
    layoutOk stepDir Plot.outSubdir (writesOf (Plot.run stepDir fs arg)) ∧
    layoutOk stepDir Fancyplot.outSubdir (writesOf (Fancyplot.run stepDir fs arg)) ∧
    layoutOk stepDir MappedRaw.outSubdir
      (MappedRaw.run stepDir n m seed workerState sched).1 ∧
    layoutOk stepDir MappedInvert.outSubdir
      (writesOf (MappedInvert.run stepDir fs arg sched)) ∧
    layoutOk stepDir MappedSum.outSubdir
      (writesOf (MappedSum.run stepDir fs arg sched)) ∧
    ([Raw.outSubdir, Invert.outSubdir, Sum.outSubdir, Plot.outSubdir,
      Fancyplot.outSubdir, MappedRaw.outSubdir, MappedInvert.outSubdir,
      MappedSum.outSubdir].all amendedLayoutSubdirs.contains) = true :=
  ⟨layoutOk_raw stepDir n m seed,
   layoutOk_invert stepDir fs arg,
   layoutOk_sum stepDir fs arg,
   layoutOk_plot stepDir fs arg,
   layoutOk_fancyplot stepDir fs arg,
   layoutOk_mappedRaw stepDir n m seed workerState sched,
   layoutOk_mappedInvert stepDir fs arg sched,
   layoutOk_mappedSum stepDir fs arg sched,
   by decide⟩

theorem step_output_layout_witness :
    layoutOk ["ls", "x"] Raw.outSubdir (Raw.run ["ls", "x"] 1 2 3).1 ∧
    layoutOk ["ls", "x"] Invert.outSubdir
      (writesOf (Invert.run ["ls", "x"] (fun _ => none) (some (.paths [["a", "b.npy"]])))) ∧
    layoutOk ["ls", "x"] Sum.outSubdir
      (writesOf (Sum.run ["ls", "x"] (fun _ => none) (some (.paths [["a", "b.npy"]])))) ∧
    layoutOk ["ls", "x"] Plot.outSubdir
      (writesOf (Plot.run ["ls", "x"] (fun _ => none) (some (.paths [["a", "b.npy"]])))) ∧
    layoutOk ["ls", "x"] Fancyplot.outSubdir
      (writesOf (Fancyplot.run ["ls", "x"] (fun _ => none) (some (.paths [["a", "b.npy"]])))) ∧
    layoutOk ["ls", "x"] MappedRaw.outSubdir
      (MappedRaw.run ["ls", "x"] 1 2 3 (fun s => s) [0]).1 ∧
    layoutOk ["ls", "x"] MappedInvert.outSubdir
      (writesOf (MappedInvert.run ["ls", "x"] (fun _ => none)
        (some (.paths [["a", "b.npy"]])) [0])) ∧
    layoutOk ["ls", "x"] MappedSum.outSubdir
      (writesOf (MappedSum.run ["ls", "x"] (fun _ => none)
        (some (.paths [["a", "b.npy"]])) [0])) ∧
    ([Raw.outSubdir, Invert.outSubdir, Sum.outSubdir, Plot.outSubdir,
      Fancyplot.outSubdir, MappedRaw.outSubdir, MappedInvert.outSubdir,
      MappedSum.outSubdir].all amendedLayoutSubdirs.contains) = true :=
  step_output_layout ["ls", "x"] (fun _ => none) 1 2 3
    (some (.paths [["a", "b.npy"]])) (fun s => s) [0]

theorem resolveInput_manifestPath_missing (fs : FS) (d p : FPath) (hp : fs p = none) :
    resolveInput fs d (some (.manifestPath p)) = .error (.fileNotFound p) := by
  simp only [resolveInput, readManifestCsv, hp]

theorem resolveInput_none_missing (fs : FS) (d : FPath) (hd : fs d = none) :
    resolveInput fs d none = .error (.fileNotFound d) := by
  simp only [resolveInput, readManifestCsv, hd]

theorem invert_run_resolve_error (stepDir : FPath) (fs : FS) (arg : Option MatricesArg)
    {err : IOErr} (hres : resolveInput fs (Invert.defaultManifest stepDir) arg = .error err) :
    Invert.run stepDir fs arg = .error err := by
  simp only [Invert.run, hres, error_bind]

theorem sum_run_resolve_error (stepDir : FPath) (fs : FS) (arg : Option MatricesArg)
    {err : IOErr} (hres : resolveInput fs (Sum.defaultManifest stepDir) arg = .error err) :
    Sum.run stepDir fs arg = .error err := by
  simp only [Sum.run, hres, error_bind]

theorem plot_run_resolve_error (stepDir : FPath) (fs : FS) (arg : Option MatricesArg)
    {err : IOErr} (hres : resolveInput fs (Plot.defaultManifest stepDir) arg = .error err) :
    Plot.run stepDir fs arg = .error err := by
  simp only [Plot.run, hres, error_bind]

theorem fancyplot_run_resolve_error (stepDir : FPath) (fs : FS) (arg : Option MatricesArg)
    {err : IOErr} (hres : resolveInput fs (Fancyplot.defaultManifest stepDir) arg = .error err) :
    Fancyplot.run stepDir fs arg = .error err := by
  simp only [Fancyplot.run, hres, error_bind]

theorem mappedInvert_run_resolve_error (stepDir : FPath) (fs : FS) (arg : Option MatricesArg)
    (sched : List Nat) {err : IOErr}
    (hres : resolveInput fs (MappedInvert.defaultManifest stepDir) arg = .error err) :
    MappedInvert.run stepDir fs arg sched = .error err := by
  simp only [MappedInvert.run, hres, error_bind]

theorem mappedSum_run_resolve_error (stepDir : FPath) (fs : FS) (arg : Option MatricesArg)
    (sched : List Nat) {err : IOErr}
    (hres : resolveInput fs (MappedSum.defaultManifest stepDir) arg = .error err) :
    MappedSum.run stepDir fs arg sched = .error err := by
  simp only [MappedSum.run, hres, error_bind]

/-- Claim C6: for every manifest-reading step (Invert, Sum, Plot, Fancyplot,
MappedInvert, MappedSum), if `run` is given a manifest path — explicitly or
by defaulting on `None` — and that manifest file does not exist,
the run propagates `FileNotFoundError` (from `Path.resolve(strict=True)`)
and performs no write at all: the staging directory is untouched. -/
theorem missing_manifest_fails_before_write (stepDir p : FPath) (fs : FS)
    (sched : List Nat) (hp : fs p = none) :
    (Invert.run stepDir fs (some (.manifestPath p)) = .error (.fileNotFound p)
      ∧ writesOf (Invert.run stepDir fs (some (.manifestPath p))) = []) ∧
    (Sum.run stepDir fs (some (.manifestPath p)) = .error (.fileNotFound p)
      ∧ writesOf (Sum.run stepDir fs (some (.manifestPath p))) = []) ∧
    (Plot.run stepDir fs (some (.manifestPath p)) = .error (.fileNotFound p)
      ∧ writesOf (Plot.run stepDir fs (some (.manifestPath p))) = []) ∧
    (Fancyplot.run stepDir fs (some (.manifestPath p)) = .error (.fileNotFound p)
      ∧ writesOf (Fancyplot.run stepDir fs (some (.manifestPath p))) = []) ∧
    (MappedInvert.run stepDir fs (some (.manifestPath p)) sched = .error (.fileNotFound p)
      ∧ writesOf (MappedInvert.run stepDir fs (some (.manifestPath p)) sched) = []) ∧
    (MappedSum.run stepDir fs (some (.manifestPath p)) sched = .error (.fileNotFound p)
      ∧ writesOf (MappedSum.run stepDir fs (some (.manifestPath p)) sched) = []) ∧
    (fs (Invert.defaultManifest stepDir) = none →
      Invert.run stepDir fs none = .error (.fileNotFound (Invert.defaultManifest stepDir))
      ∧ writesOf (Invert.run stepDir fs none) = []) ∧
    (fs (Sum.defaultManifest stepDir) = none →
      Sum.run stepDir fs none = .error (.fileNotFound (Sum.defaultManifest stepDir))
      ∧ writesOf (Sum.run stepDir fs none) = []) ∧
    (fs (Plot.defaultManifest stepDir) = none →
      Plot.run stepDir fs none = .error (.fileNotFound (Plot.defaultManifest stepDir))
      ∧ writesOf (Plot.run stepDir fs none) = []) ∧
    (fs (Fancyplot.defaultManifest stepDir) = none →
      Fancyplot.run stepDir fs none = .error (.fileNotFound (Fancyplot.defaultManifest stepDir))
      ∧ writesOf (Fancyplot.run stepDir fs none) = []) ∧
    (fs (MappedInvert.defaultManifest stepDir) = none →
      MappedInvert.run stepDir fs none sched
        = .error (.fileNotFound (MappedInvert.defaultManifest stepDir))
      ∧ writesOf (MappedInvert.run stepDir fs none sched) = []) ∧
    (fs (MappedSum.defaultManifest stepDir) = none →
      MappedSum.run stepDir fs none sched
        = .error (.fileNotFound (MappedSum.defaultManifest stepDir))
      ∧ writesOf (MappedSum.run stepDir fs none sched) = []) := by
  refine ⟨?_, ?_, ?_, ?_, ?_, ?_, ?_, ?_, ?_, ?_, ?_, ?_⟩
  · have h := invert_run_resolve_error stepDir fs _
      (resolveInput_manifestPath_missing fs _ p hp)
    exact ⟨h, by rw [h]; rfl⟩
  · have h := sum_run_resolve_error stepDir fs _
      (resolveInput_manifestPath_missing fs _ p hp)
    exact ⟨h, by rw [h]; rfl⟩
  · have h := plot_run_resolve_error stepDir fs _
      (resolveInput_manifestPath_missing fs _ p hp)
    exact ⟨h, by rw [h]; rfl⟩
  · have h := fancyplot_run_resolve_error stepDir fs _
      (resolveInput_manifestPath_missing fs _ p hp)
    exact ⟨h, by rw [h]; rfl⟩
  · have h := mappedInvert_run_resolve_error stepDir fs _ sched
      (resolveInput_manifestPath_missing fs _ p hp)
    exact ⟨h, by rw [h]; rfl⟩
  · have h := mappedSum_run_resolve_error stepDir fs _ sched
      (resolveInput_manifestPath_missing fs _ p hp)
    exact ⟨h, by rw [h]; rfl⟩
  · intro hd
    have h := invert_run_resolve_error stepDir fs none
      (resolveInput_none_missing fs _ hd)
    exact ⟨h, by rw [h]; rfl⟩
  · intro hd
    have h := sum_run_resolve_error stepDir fs none
      (resolveInput_none_missing fs _ hd)
    exact ⟨h, by rw [h]; rfl⟩
  · intro hd
    have h := plot_run_resolve_error stepDir fs none
      (resolveInput_none_missing fs _ hd)
    exact ⟨h, by rw [h]; rfl⟩
  · intro hd
    have h := fancyplot_run_resolve_error stepDir fs none
      (resolveInput_none_missing fs _ hd)
    exact ⟨h, by rw [h]; rfl⟩
  · intro hd
    have h := mappedInvert_run_resolve_error stepDir fs none sched
      (resolveInput_none_missing fs _ hd)
    exact ⟨h, by rw [h]; rfl⟩
  · intro hd
    have h := mappedSum_run_resolve_error stepDir fs none sched
      (resolveInput_none_missing fs _ hd)
    exact ⟨h, by rw [h]; rfl⟩

theorem missing_manifest_fails_before_write_witness :
    ((fun (_ : FPath) => (none : Option (List FPath))) ["q"] = none) ∧
    ((Invert.run ["ls", "x"] (fun _ => none) (some (.manifestPath ["q"])) = .error (.fileNotFound ["q"])
        ∧ writesOf (Invert.run ["ls", "x"] (fun _ => none) (some (.manifestPath ["q"]))) = []) ∧
      (Sum.run ["ls", "x"] (fun _ => none) (some (.manifestPath ["q"])) = .error (.fileNotFound ["q"])
        ∧ writesOf (Sum.run ["ls", "x"] (fun _ => none) (some (.manifestPath ["q"]))) = []) ∧
      (Plot.run ["ls", "x"] (fun _ => none) (some (.manifestPath ["q"])) = .error (.fileNotFound ["q"])
        ∧ writesOf (Plot.run ["ls", "x"] (fun _ => none) (some (.manifestPath ["q"]))) = []) ∧
      (Fancyplot.run ["ls", "x"] (fun _ => none) (some (.manifestPath ["q"])) = .error (.fileNotFound ["q"])
        ∧ writesOf (Fancyplot.run ["ls", "x"] (fun _ => none) (some (.manifestPath ["q"]))) = []) ∧
      (MappedInvert.run ["ls", "x"] (fun _ => none) (some (.manifestPath ["q"])) [] = .error (.fileNotFound ["q"])
        ∧ writesOf (MappedInvert.run ["ls", "x"] (fun _ => none) (some (.manifestPath ["q"])) []) = []) ∧
      (MappedSum.run ["ls", "x"] (fun _ => none) (some (.manifestPath ["q"])) [] = .error (.fileNotFound ["q"])
        ∧ writesOf (MappedSum.run ["ls", "x"] (fun _ => none) (some (.manifestPath ["q"])) []) = []) ∧
      ((fun _ => none : FS) (Invert.defaultManifest ["ls", "x"]) = none →
        Invert.run ["ls", "x"] (fun _ => none) none = .error (.fileNotFound (Invert.defaultManifest ["ls", "x"]))
        ∧ writesOf (Invert.run ["ls", "x"] (fun _ => none) none) = []) ∧
      ((fun _ => none : FS) (Sum.defaultManifest ["ls", "x"]) = none →
        Sum.run ["ls", "x"] (fun _ => none) none = .error (.fileNotFound (Sum.defaultManifest ["ls", "x"]))
        ∧ writesOf (Sum.run ["ls", "x"] (fun _ => none) none) = []) ∧
      ((fun _ => none : FS) (Plot.defaultManifest ["ls", "x"]) = none →
        Plot.run ["ls", "x"] (fun _ => none) none = .error (.fileNotFound (Plot.defaultManifest ["ls", "x"]))
        ∧ writesOf (Plot.run ["ls", "x"] (fun _ => none) none) = []) ∧
      ((fun _ => none : FS) (Fancyplot.defaultManifest ["ls", "x"]) = none →
        Fancyplot.run ["ls", "x"] (fun _ => none) none = .error (.fileNotFound (Fancyplot.defaultManifest ["ls", "x"]))
        ∧ writesOf (Fancyplot.run ["ls", "x"] (fun _ => none) none) = []) ∧
      ((fun _ => none : FS) (MappedInvert.defaultManifest ["ls", "x"]) = none →
        MappedInvert.run ["ls", "x"] (fun _ => none) none []
          = .error (.fileNotFound (MappedInvert.defaultManifest ["ls", "x"]))
        ∧ writesOf (MappedInvert.run ["ls", "x"] (fun _ => none) none []) = []) ∧
      ((fun _ => none : FS) (MappedSum.defaultManifest ["ls", "x"]) = none →
        MappedSum.run ["ls", "x"] (fun _ => none) none []
          = .error (.fileNotFound (MappedSum.defaultManifest ["ls", "x"]))
        ∧ writesOf (MappedSum.run ["ls", "x"] (fun _ => none) none []) = [])) :=
  ⟨rfl, missing_manifest_fails_before_write ["ls", "x"] ["q"] (fun _ => none) [] rfl⟩

/-- The manifest invariant of claim C7: the manifest dataframe has the single
column `filepath`, the run's writes are artifact writes followed by exactly
one final manifest write to the step's `manifest.csv`, and the manifest has
one row per artifact written. -/
def manifestLastInv (stepDir : FPath) (events : List Event) (man : Manifest) : Prop :=
  man.column = "filepath" ∧
  ∃ pre, events = pre ++ [.saveManifest (manifestCsvPath stepDir) man] ∧
    (∀ e ∈ pre, e.isArtifact = true) ∧ man.rows.length = pre.length

/-- Claim C7: for every step, the manifest is a one-column (`filepath`) table
with one row per produced artifact (`n` rows for `n` arrays, 1 row for a
single plot), and saving the manifest is the last write the step performs,
after all artifacts. -/
theorem manifest_saved_last_one_row_per_artifact
    (stepDir srcDir : FPath) (fs : FS) (n m seed : Nat) (mats vecs : List FPath)
    (workerState : Nat → Nat) (sched : List Nat)
    (hsched : sched.Perm (List.range n)) (hne : vecs ≠ []) :
    manifestLastInv stepDir (Raw.run stepDir n m seed).1 (Raw.run stepDir n m seed).2.1 ∧
    (∃ r, Invert.run stepDir fs (some (.paths mats)) = .ok r
      ∧ manifestLastInv stepDir r.1 r.2.1) ∧
    (∃ r, Sum.run stepDir fs (some (.paths mats)) = .ok r
      ∧ manifestLastInv stepDir r.1 r.2.1) ∧
    (∃ r, Plot.run stepDir fs (some (.paths vecs)) = .ok r
      ∧ manifestLastInv stepDir r.1 r.2.1) ∧
    (∃ r, Fancyplot.run stepDir fs (some (.paths vecs)) = .ok r
      ∧ manifestLastInv stepDir r.1 r.2.1) ∧
    manifestLastInv stepDir (MappedRaw.run stepDir n m seed workerState sched).1
      (MappedRaw.run stepDir n m seed workerState sched).2.1 ∧
    (∃ r, MappedInvert.run stepDir fs (some (.paths (canonInputs srcDir n))) sched = .ok r
      ∧ manifestLastInv stepDir r.1 r.2.1) ∧
    (∃ r, MappedSum.run stepDir fs (some (.paths (canonInputs srcDir n))) sched = .ok r
      ∧ manifestLastInv stepDir r.1 r.2.1) := by
  refine ⟨?_, ?_, ?_, ?_, ?_, ?_, ?_, ?_⟩
  · refine ⟨rfl, (List.range n).map fun i =>
        Event.saveArray ((stepDir ++ [Raw.outSubdir]) ++ [matName i]) (.rand (seed + i) m),
      rfl, ?_, ?_⟩
    · intro e he
      rcases List.mem_map.mp he with ⟨i, _, rfl⟩
      rfl
    · show (((List.range n).map fun i =>
          (stepDir ++ [Raw.outSubdir]) ++ [matName i]).map some).length = _
      simp
  · refine ⟨_, invert_run_ok stepDir fs _ rfl, rfl, mats.map fun mp =>
        Event.saveArray ((stepDir ++ [Invert.outSubdir]) ++ [fileName mp])
          (.inv (.loaded mp)), rfl, ?_, ?_⟩
    · intro e he
      rcases List.mem_map.mp he with ⟨mp, _, rfl⟩
      rfl
    · simp [mkManifest]
  · refine ⟨_, sum_run_ok stepDir fs _ rfl, rfl, mats.enum.map fun iv =>
        Event.saveArray ((stepDir ++ [Sum.outSubdir]) ++ [vecName iv.1])
          (.sumVec (.loaded iv.2)), rfl, ?_, ?_⟩
    · intro e he
      rcases List.mem_map.mp he with ⟨iv, _, rfl⟩
      rfl
    · simp [mkManifest]
  · refine ⟨_, plot_run_ok stepDir fs _ rfl, rfl,
      [.savePlot ((stepDir ++ [Plot.outSubdir]) ++ ["plot.png"]) vecs], rfl, ?_, ?_⟩
    · intro e he
      rw [List.mem_singleton] at he
      subst he
      rfl
    · rfl
  · refine ⟨_, fancyplot_run_ok stepDir fs _ hne rfl, rfl,
      [.savePlot ((stepDir ++ [Fancyplot.outSubdir]) ++ ["plot_fancy.png"]) vecs], rfl, ?_, ?_⟩
    · intro e he
      rw [List.mem_singleton] at he
      subst he
      rfl
    · rfl
  · have htl : ((List.range n).map fun j =>
        MappedRaw.generateArray (workerState j) j m (stepDir ++ [MappedRaw.outSubdir])).length
        = n := by simp
    have hsched2 : sched.Perm (List.range (((List.range n).map fun j =>
        MappedRaw.generateArray (workerState j) j m
          (stepDir ++ [MappedRaw.outSubdir])).length)) := by
      rw [htl]
      exact hsched
    have hgl : (gather sched ((List.range n).map fun j =>
        MappedRaw.generateArray (workerState j) j m (stepDir ++ [MappedRaw.outSubdir]))).length
        = n := by
      rw [(gather_perm _ hsched2).length_eq, htl]
    refine ⟨rfl, ((gather sched ((List.range n).map fun j =>
        MappedRaw.generateArray (workerState j) j m (stepDir ++ [MappedRaw.outSubdir]))).map
          (fun r => r.2) : List Event), ?_, ?_, ?_⟩
    · rfl
    · intro e he
      rcases List.mem_map.mp he with ⟨r, hr, rfl⟩
      rcases List.mem_map.mp (gather_subset sched _ hr) with ⟨j, _, rfl⟩
      rfl
    · show (placeRows n _).length = _
      rw [placeRows_length, List.length_map, hgl]
  · refine ⟨_, mappedInvert_run_ok stepDir fs _ sched rfl
        (exceptMap_invertArray_canon (stepDir ++ [MappedInvert.outSubdir]) srcDir n sched),
      rfl, ((gather sched (canonInputs srcDir n)).map
        (invertResult (stepDir ++ [MappedInvert.outSubdir]))).map (fun r => r.2), rfl, ?_, ?_⟩
    · intro e he
      rcases List.mem_map.mp he with ⟨r, hr, rfl⟩
      rcases List.mem_map.mp hr with ⟨p, _, rfl⟩
      rfl
    · show (placeRows (canonInputs srcDir n).length _).length = _
      rw [placeRows_length, List.length_map, List.length_map,
        (gather_canon_perm srcDir hsched).length_eq]
  · refine ⟨_, mappedSum_run_ok stepDir fs _ sched rfl
        (exceptMap_sumArray_canon (stepDir ++ [MappedSum.outSubdir]) srcDir n sched),
      rfl, ((gather sched (canonInputs srcDir n)).map
        (sumResult (stepDir ++ [MappedSum.outSubdir]))).map (fun r => r.2), rfl, ?_, ?_⟩
    · intro e he
      rcases List.mem_map.mp he with ⟨r, hr, rfl⟩
      rcases List.mem_map.mp hr with ⟨p, _, rfl⟩
      rfl
    · show (placeRows (canonInputs srcDir n).length _).length = _
      rw [placeRows_length, List.length_map, List.length_map,
        (gather_canon_perm srcDir hsched).length_eq]

theorem manifest_saved_last_one_row_per_artifact_witness :
    (([0] : List Nat).Perm (List.range 1) ∧ ([["v", "w.npy"]] : List FPath) ≠ []) ∧
    (manifestLastInv ["ls", "x"] (Raw.run ["ls", "x"] 1 2 3).1 (Raw.run ["ls", "x"] 1 2 3).2.1 ∧
      (∃ r, Invert.run ["ls", "x"] (fun _ => none) (some (.paths [["a", "b.npy"]])) = .ok r
        ∧ manifestLastInv ["ls", "x"] r.1 r.2.1) ∧
      (∃ r, Sum.run ["ls", "x"] (fun _ => none) (some (.paths [["a", "b.npy"]])) = .ok r
        ∧ manifestLastInv ["ls", "x"] r.1 r.2.1) ∧
      (∃ r, Plot.run ["ls", "x"] (fun _ => none) (some (.paths [["v", "w.npy"]])) = .ok r
        ∧ manifestLastInv ["ls", "x"] r.1 r.2.1) ∧
      (∃ r, Fancyplot.run ["ls", "x"] (fun _ => none) (some (.paths [["v", "w.npy"]])) = .ok r
        ∧ manifestLastInv ["ls", "x"] r.1 r.2.1) ∧
      manifestLastInv ["ls", "x"] (MappedRaw.run ["ls", "x"] 1 2 3 (fun s => s) [0]).1
        (MappedRaw.run ["ls", "x"] 1 2 3 (fun s => s) [0]).2.1 ∧
      (∃ r, MappedInvert.run ["ls", "x"] (fun _ => none)
          (some (.paths (canonInputs ["s"] 1))) [0] = .ok r
        ∧ manifestLastInv ["ls", "x"] r.1 r.2.1) ∧
      (∃ r, MappedSum.run ["ls", "x"] (fun _ => none)
          (some (.paths (canonInputs ["s"] 1))) [0] = .ok r
        ∧ manifestLastInv ["ls", "x"] r.1 r.2.1)) :=
  ⟨⟨by decide, by decide⟩,
    manifest_saved_last_one_row_per_artifact ["ls", "x"] ["s"] (fun _ => none) 1 2 3
      [["a", "b.npy"]] [["v", "w.npy"]] (fun s => s) [0] (by decide) (by decide)⟩

theorem matName_path_ne (saveDir : FPath) {i j : Nat} (hij : i ≠ j) :
    saveDir ++ [matName i] ≠ saveDir ++ [matName j] := by
  intro h
  have h2 := List.append_cancel_left h
  injection h2 with h3 _
  exact hij (matName_injective h3)

theorem layoutOk_prefix {stepDir : FPath} {sub : String} {evs : List Event}
    (h : layoutOk stepDir sub evs) : ∀ e ∈ evs, stepDir <+: e.path := by
  intro e he
  rcases h e he with hm | ⟨name, hp⟩
  · rw [hm]
    exact List.prefix_append _ _
  · rw [hp]
    exact List.prefix_append _ _

theorem distinct_prefixes_disjoint {d1 d2 q : FPath} (hlen : d1.length = d2.length)
    (hne : d1 ≠ d2) (h1 : d1 <+: q) (h2 : d2 <+: q) : False :=
  hne ((List.prefix_of_prefix_length_le h1 h2 (le_of_eq hlen)).eq_of_length hlen)

/-- Claim C8: within one run of a mapped step, distinct task indices compute
distinct save paths; every write of every step lies under the step's own
staging directory; and two steps with distinct step directories (of equal
depth, as all `local_staging/<step_name>` are) never write the same path. -/
theorem distinct_task_paths_and_exclusive_ownership
    (stepDir saveDir srcA srcB : FPath) (fs : FS) (n m seed w1 w2 : Nat)
    (arg : Option MatricesArg) (workerState : Nat → Nat) (sched : List Nat)
    (i j : Nat) (hij : i ≠ j) :
    ((MappedRaw.generateArray w1 i m saveDir).1.2
      ≠ (MappedRaw.generateArray w2 j m saveDir).1.2) ∧
    ((MappedInvert.invertArray (srcA ++ [matName i]) saveDir).map (fun r => r.1.2)
      ≠ (MappedInvert.invertArray (srcB ++ [matName j]) saveDir).map (fun r => r.1.2)) ∧
    ((MappedSum.sumArray (srcA ++ [matName i]) saveDir).map (fun r => r.1.2)
      ≠ (MappedSum.sumArray (srcB ++ [matName j]) saveDir).map (fun r => r.1.2)) ∧
    (∀ e ∈ (Raw.run stepDir n m seed).1, stepDir <+: e.path) ∧
    (∀ e ∈ writesOf (Invert.run stepDir fs arg), stepDir <+: e.path) ∧
    (∀ e ∈ writesOf (Sum.run stepDir fs arg), stepDir <+: e.path) ∧
    (∀ e ∈ writesOf (Plot.run stepDir fs arg), stepDir <+: e.path) ∧
    (∀ e ∈ writesOf (Fancyplot.run stepDir fs arg), stepDir <+: e.path) ∧
    (∀ e ∈ (MappedRaw.run stepDir n m seed workerState sched).1, stepDir <+: e.path) ∧
    (∀ e ∈ writesOf (MappedInvert.run stepDir fs arg sched), stepDir <+: e.path) ∧
    (∀ e ∈ writesOf (MappedSum.run stepDir fs arg sched), stepDir <+: e.path) ∧
    (∀ d1 d2 q : FPath, d1.length = d2.length → d1 ≠ d2 →
      d1 <+: q → d2 <+: q → False) := by
  refine ⟨matName_path_ne saveDir hij, ?_, ?_,
    layoutOk_prefix (layoutOk_raw stepDir n m seed),
    layoutOk_prefix (layoutOk_invert stepDir fs arg),
    layoutOk_prefix (layoutOk_sum stepDir fs arg),
    layoutOk_prefix (layoutOk_plot stepDir fs arg),
    layoutOk_prefix (layoutOk_fancyplot stepDir fs arg),
    layoutOk_prefix (layoutOk_mappedRaw stepDir n m seed workerState sched),
    layoutOk_prefix (layoutOk_mappedInvert stepDir fs arg sched),
    layoutOk_prefix (layoutOk_mappedSum stepDir fs arg sched),
    fun _ _ _ hlen hne h1 h2 => distinct_prefixes_disjoint hlen hne h1 h2⟩
  · intro h
    rw [invertArray_matName srcA saveDir i, invertArray_matName srcB saveDir j] at h
    simp only [Except.map] at h
    injection h with h2
    exact matName_path_ne saveDir hij h2
  · intro h
    rw [sumArray_matName srcA saveDir i, sumArray_matName srcB saveDir j] at h
    simp only [Except.map] at h
    injection h with h2
    exact matName_path_ne saveDir hij h2

theorem distinct_task_paths_and_exclusive_ownership_witness :
    (0 ≠ 1) ∧
    (((MappedRaw.generateArray 5 0 2 ["d"]).1.2
        ≠ (MappedRaw.generateArray 7 1 2 ["d"]).1.2) ∧
      ((MappedInvert.invertArray (["a"] ++ [matName 0]) ["d"]).map (fun r => r.1.2)
        ≠ (MappedInvert.invertArray (["b"] ++ [matName 1]) ["d"]).map (fun r => r.1.2)) ∧
      ((MappedSum.sumArray (["a"] ++ [matName 0]) ["d"]).map (fun r => r.1.2)
        ≠ (MappedSum.sumArray (["b"] ++ [matName 1]) ["d"]).map (fun r => r.1.2)) ∧
      (∀ e ∈ (Raw.run ["ls", "x"] 1 2 3).1, ["ls", "x"] <+: e.path) ∧
      (∀ e ∈ writesOf (Invert.run ["ls", "x"] (fun _ => none)
        (some (.paths [["a", "b.npy"]]))), ["ls", "x"] <+: e.path) ∧
      (∀ e ∈ writesOf (Sum.run ["ls", "x"] (fun _ => none)
        (some (.paths [["a", "b.npy"]]))), ["ls", "x"] <+: e.path) ∧
      (∀ e ∈ writesOf (Plot.run ["ls", "x"] (fun _ => none)
        (some (.paths [["a", "b.npy"]]))), ["ls", "x"] <+: e.path) ∧
      (∀ e ∈ writesOf (Fancyplot.run ["ls", "x"] (fun _ => none)
        (some (.paths [["a", "b.npy"]]))), ["ls", "x"] <+: e.path) ∧
      (∀ e ∈ (MappedRaw.run ["ls", "x"] 1 2 3 (fun s => s) [0]).1, ["ls", "x"] <+: e.path) ∧
      (∀ e ∈ writesOf (MappedInvert.run ["ls", "x"] (fun _ => none)
        (some (.paths [["a", "b.npy"]])) [0]), ["ls", "x"] <+: e.path) ∧
      (∀ e ∈ writesOf (MappedSum.run ["ls", "x"] (fun _ => none)
        (some (.paths [["a", "b.npy"]])) [0]), ["ls", "x"] <+: e.path) ∧
      (∀ d1 d2 q : FPath, d1.length = d2.length → d1 ≠ d2 →
        d1 <+: q → d2 <+: q → False)) :=
  ⟨by decide,
    distinct_task_paths_and_exclusive_ownership ["ls", "x"] ["d"] ["a"] ["b"]
      (fun _ => none) 1 2 3 5 7 (some (.paths [["a", "b.npy"]])) (fun s => s) [0]
      0 1 (by decide)⟩

/-- Claim C9 counterexample: `Fancyplot.run` on the empty vector list raises
`UnboundLocalError` (fancyplot.py 99 reads `m`, which the loop never
assigned) and writes nothing — so "for every input list of vectors they
produce exactly one plot artifact" fails at `[]`. -/
theorem fancyplot_empty_input_raises :
    Fancyplot.run ["local_staging", "fancyplot"] (fun _ => none) (some (.paths []))
      = .error .unboundLocal ∧
    writesOf (Fancyplot.run ["local_staging", "fancyplot"] (fun _ => none)
      (some (.paths []))) = [] :=
  ⟨rfl, rfl⟩

/-- Claim C9 (amended): `Plot.run` and `Fancyplot.run` return the single path
of the one plot image they produce — not a list of paths: the artifact writes
of a successful run are exactly one plot save, whose path is the returned
value. `Plot` does so for every input list; `Fancyplot` for every nonempty
input list (it raises `UnboundLocalError` on the empty one). -/
theorem plot_returns_single_plot_path (stepDir : FPath) (fs : FS) (vecs : List FPath) :
    (∃ ev man p, Plot.run stepDir fs (some (.paths vecs)) = .ok (ev, man, p) ∧
      (ev.filter Event.isArtifact).map Event.path = [p]) ∧
    (vecs ≠ [] →
      ∃ ev man p, Fancyplot.run stepDir fs (some (.paths vecs)) = .ok (ev, man, p) ∧
        (ev.filter Event.isArtifact).map Event.path = [p]) := by
  constructor
  · exact ⟨_, _, _, plot_run_ok stepDir fs _ rfl, rfl⟩
  · intro hne
    exact ⟨_, _, _, fancyplot_run_ok stepDir fs _ hne rfl, rfl⟩

theorem plot_returns_single_plot_path_witness :
    (([["v", "w.npy"]] : List FPath) ≠ []) ∧
    ((∃ ev man p, Plot.run ["ls", "x"] (fun _ => none)
          (some (.paths [["v", "w.npy"]])) = .ok (ev, man, p) ∧
        (ev.filter Event.isArtifact).map Event.path = [p]) ∧
      (([["v", "w.npy"]] : List FPath) ≠ [] →
        ∃ ev man p, Fancyplot.run ["ls", "x"] (fun _ => none)
            (some (.paths [["v", "w.npy"]])) = .ok (ev, man, p) ∧
          (ev.filter Event.isArtifact).map Event.path = [p])) :=
  ⟨by decide, plot_returns_single_plot_path ["ls", "x"] (fun _ => none) [["v", "w.npy"]]⟩

/-- Claim C10: the `seed` argument of `MappedRaw.run` does not influence the
generated arrays: `_generate_array` has no seed parameter and draws from its
worker process's own generator state, so two runs identical but for the seed
produce identical events, manifest and return value — `np.random.seed(seed)`
only touches the driver's generator, which nothing reads. By contrast the
arrays `Raw.run` saves are a function of the seed: its i-th write holds the
draw of the seeded stream at state `seed + i`. -/
theorem mappedRaw_seed_noninterference (stepDir : FPath) (n m s1 s2 : Nat)
    (workerState : Nat → Nat) (sched : List Nat) (seed i : Nat) (hi : i < n) :
    MappedRaw.run stepDir n m s1 workerState sched
      = MappedRaw.run stepDir n m s2 workerState sched ∧
    (Raw.run stepDir n m seed).1[i]?
      = some (.saveArray ((stepDir ++ [Raw.outSubdir]) ++ [matName i])
          (.rand (seed + i) m)) := by
  constructor
  · rfl
  · show (((List.range n).map fun k => Event.saveArray
        ((stepDir ++ [Raw.outSubdir]) ++ [matName k]) (.rand (seed + k) m))
        ++ [Event.saveManifest (manifestCsvPath stepDir) (Raw.run stepDir n m seed).2.1])[i]?
      = _
    rw [List.getElem?_append_left (by simpa using hi), List.getElem?_map,
      List.getElem?_range hi]
    rfl

theorem mappedRaw_seed_noninterference_witness :
    (0 < 1) ∧
    (MappedRaw.run ["ls", "x"] 1 2 11 (fun s => s) [0]
        = MappedRaw.run ["ls", "x"] 1 2 42 (fun s => s) [0] ∧
      (Raw.run ["ls", "x"] 1 2 9).1[0]?
        = some (.saveArray ((["ls", "x"] ++ [Raw.outSubdir]) ++ [matName 0])
            (.rand (9 + 0) 2))) :=
  ⟨by decide,
    mappedRaw_seed_noninterference ["ls", "x"] 1 2 11 42 (fun s => s) [0] 9 0 (by decide)⟩
